import Mathlib

/-!
Verification development for the configuration-resolution and graph-preparation
core of `sophgo_mq/prepare_by_platform.py`.

Python dictionaries keyed by strings are embedded as association lists
(`List (String × α)`) with assignment (`dictSet`), lookup (`dictGet`) and
`dict.update` (`dictUpdate`).  Python classes that are only selected by name
(observers, fake-quantize algorithms) are represented by their registry name,
which is faithful because each registry maps distinct names to distinct
classes.  Exceptions are embedded with `Except Err`:
`Err.assertionError` for Python `assert` failures (the source uses asserts for
its unsupported-bit-width, unknown-name and invalid-combination errors),
`Err.valueError` for `raise ValueError` (the invalid-mode error),
`Err.keyError` for dictionary `KeyError`,
`Err.nameError` for `UnboundLocalError` on a never-assigned local, and
`Err.attributeError` for `getattr` failures (the attribute-path error).
-/

namespace SophgoMQ

/-- Python dict assignment `d[k] = v`: overwrite the binding in place if the
key is present, else append the binding (insertion order preserved). -/
def dictSet {α : Type} : List (String × α) → String → α → List (String × α)
  | [], k, v => [(k, v)]
  | (k2, v2) :: rest, k, v =>
    if k2 = k then (k, v) :: rest else (k2, v2) :: dictSet rest k v

/-- Python dict lookup `d[k]` / `d.get(k)`, returning the first binding. -/
def dictGet {α : Type} : List (String × α) → String → Option α
  | [], _ => none
  | (k2, v2) :: rest, k => if k2 = k then some v2 else dictGet rest k

/-- Python `d.update(other)`: assign every binding of `other` into `d`. -/
def dictUpdate {α : Type} (d other : List (String × α)) : List (String × α) :=
  other.foldl (fun acc p => dictSet acc p.1 p.2) d

/-- Errors raised by the embedded Python code. -/
inductive Err where
  | assertionError (msg : String)
  | valueError (msg : String)
  | keyError (key : String)
  | nameError (name : String)
  | attributeError (name : String)
  deriving DecidableEq, Repr

/-- Modelled from the spec (the class lives in `sophgo_mq/scheme.py`, which is
not part of the analysed sources): a quantization scheme carries a bit width,
the `symmetry` / `per_channel` / `pot_scale` flags, an optional
`symmetric_range` flag, and a mutable mapping of extra keyword parameters
(`kwargs`) into which observer extra arguments are merged additively with
last-write-wins.  The bit width is `Option Nat` because override specs fetch
it with `dict.get` and may pass `None` through to the constructor. -/
structure QuantizeScheme where
  symmetry : Bool
  per_channel : Bool
  pot_scale : Bool
  bit : Option Nat
  symmetric_range : Bool
  kwargs : List (String × Nat)
  deriving DecidableEq, Repr

/-- A user-supplied scheme-override dictionary (`w_qscheme` / `a_qscheme` in
`extra_qparams`, and the literal scheme dicts of the int4/int8/f16 paths):
`bit`, `symmetry`, `per_channel`, `pot_scale`, optionally `symmetric_range`. -/
structure SchemeDict where
  bit : Nat
  symmetry : Bool
  per_channel : Bool
  pot_scale : Bool
  symmetric_range : Option Bool
  deriving DecidableEq, Repr

/-- `QuantizeScheme(**d)` for a scheme dict: the optional flag defaults to
`false` and no extra kwargs are passed. -/
def SchemeDict.toScheme (d : SchemeDict) : QuantizeScheme :=
  { symmetry := d.symmetry
    per_channel := d.per_channel
    pot_scale := d.pot_scale
    bit := some d.bit
    symmetric_range := d.symmetric_range.getD false
    kwargs := [] }

/-- One row of `ParamsTable`: the per-chip defaults. -/
structure ChipParams where
  qtype : String
  w_qscheme : QuantizeScheme
  a_qscheme : QuantizeScheme
  default_weight_quantize : String
  default_act_quantize : String
  default_weight_observer : String
  default_act_observer : String
  deriving DecidableEq, Repr

def bm1688Params : ChipParams :=
  { qtype := "affine"
    w_qscheme := { symmetry := true, per_channel := true, pot_scale := false
                   bit := some 8, symmetric_range := false, kwargs := [] }
    a_qscheme := { symmetry := true, per_channel := false, pot_scale := false
                   bit := some 8, symmetric_range := false, kwargs := [] }
    default_weight_quantize := "LearnableFakeQuantize"
    default_act_quantize := "LearnableFakeQuantize"
    default_weight_observer := "MinMaxObserver"
    default_act_observer := "EMAMinMaxObserver" }

def bm1684xParams : ChipParams := bm1688Params

def cv183xParams : ChipParams :=
  { bm1688Params with
    w_qscheme := { symmetry := true, per_channel := true, pot_scale := false
                   bit := some 8, symmetric_range := true, kwargs := [] } }

def bm1690Params : ChipParams := bm1688Params

def academicParams : ChipParams := bm1688Params

/-- The process-wide chip-profile table. -/
def ParamsTable : List (String × ChipParams) :=
  [("BM1688", bm1688Params), ("BM1684X", bm1684xParams), ("CV183X", cv183xParams),
   ("BM1690", bm1690Params), ("Academic", academicParams)]

/-- Key set of the observer registry (values are the classes of the same
name, represented here by the name itself). -/
def ObserverDict : List String :=
  ["MinMaxObserver", "EMAMinMaxObserver", "MinMaxFloorObserver", "PoTModeObserver",
   "EMAQuantileObserver", "ClipStdObserver", "LSQObserver", "MSEObserver",
   "EMAMSEObserver", "KLDObserver"]

/-- Key set of the full fake-quantize registry. -/
def FakeQuantizeDict : List String :=
  ["FixedFakeQuantize", "LearnableFakeQuantize", "NNIEFakeQuantize", "DoReFaFakeQuantize",
   "DSQFakeQuantize", "PACTFakeQuantize", "TqtFakeQuantize", "AdaRoundFakeQuantize",
   "QDropFakeQuantize", "E4M3FakeQuantize", "E5M2FakeQuantize", "GPTQFakeQuantize",
   "FP4FakeQuantize", "GPTQFP4FakeQuantize", "FP4GROUPFakeQuantize", "FP4GROUPFakeQuantize1",
   "Fp16FakeQuantize", "BF16FakeQuantize"]

/-- Key set of the hardware-restricted fake-quantize registry. -/
def FakeQuantizeDict_Chip : List String :=
  ["FixedFakeQuantize", "LearnableFakeQuantize", "DoReFaFakeQuantize", "DSQFakeQuantize",
   "PACTFakeQuantize", "TqtFakeQuantize", "AdaRoundFakeQuantize", "QDropFakeQuantize",
   "E4M3FakeQuantize", "E5M2FakeQuantize", "Fp16FakeQuantize", "BF16FakeQuantize"]

/-- The result of `FakeQuantize.with_args(observer=..., **fakeq_params,
**scheme.to_observer_params())`: a deferred fake-quantize constructor.  The
scheme is kept as a record, which carries the same information as the flat
`to_observer_params()` expansion. -/
structure FQConfig where
  fakequantize : String
  observer : String
  fakeq_params : List (String × Nat)
  scheme : QuantizeScheme
  deriving DecidableEq, Repr

/-- One side of a torch `QConfig`: `None`, `torch.nn.Identity`, or a
parameterized fake-quantize constructor. -/
inductive QCSide where
  | none
  | identity
  | fq (c : FQConfig)
  deriving DecidableEq, Repr

/-- A torch `QConfig(activation=..., weight=...)` pair. -/
structure QConfig where
  activation : QCSide
  weight : QCSide
  deriving DecidableEq, Repr

/-- The resolved configuration tree returned by `get_qconfig_by_platform`:
`default` is the entry under the empty key, `object_type` and `module_name`
are the override mappings (absent keys are represented by empty lists). -/
structure ResolvedConfig where
  default : QConfig
  object_type : List (String × QConfig)
  module_name : List (String × QConfig)
  deriving DecidableEq, Repr

/-- The `quant_dict` argument (fields used by config resolution). -/
structure QuantDict where
  chip : String
  strategy : String
  quantmode : String
  deriving DecidableEq, Repr

/-- One `object_type` / `module_name` override spec.  Every field is fetched
with `dict.get`, hence optional. -/
structure OverrideSpec where
  mode : Option String
  bit : Option Nat
  afakequantize : Option String
  aobserver : Option String
  wfakequantize : Option String
  wobserver : Option String
  deriving DecidableEq, Repr

/-- The `extra_qparams` argument of `get_qconfig_by_platform`.  Observer and
fake-quantize names use `Option String` (`none` stands for the Python falsy
values `None` / missing key). -/
structure ExtraQParams where
  w_observer : Option String
  a_observer : Option String
  w_fakequantize : Option String
  a_fakequantize : Option String
  w_fakeq_params : List (String × Nat)
  a_fakeq_params : List (String × Nat)
  w_qscheme : Option SchemeDict
  a_qscheme : Option SchemeDict
  w_observer_extra_args : List (String × Nat)
  a_observer_extra_args : List (String × Nat)
  object_type : List (String × OverrideSpec)
  module_name : List (String × OverrideSpec)
  int4_op : List String
  int8_op : List String
  f16_op : List String
  deriving DecidableEq, Repr

/-- An empty `extra_qconfig_dict`. -/
def emptyExtra : ExtraQParams :=
  { w_observer := none, a_observer := none, w_fakequantize := none, a_fakequantize := none
    w_fakeq_params := [], a_fakeq_params := [], w_qscheme := none, a_qscheme := none
    w_observer_extra_args := [], a_observer_extra_args := []
    object_type := [], module_name := [], int4_op := [], int8_op := [], f16_op := [] }

/-- Look a name up in a registry whose values are the classes named by the
keys (`ObserverDict[n]` / `FakeQuantizeDict[n]`); a missing key raises
`KeyError`. -/
def dictIndex (keys : List String) (n : String) : Except Err String :=
  if n ∈ keys then .ok n else .error (.keyError n)

/-- `dictIndex` on a value fetched with `dict.get`: indexing a registry with
Python `None` also raises `KeyError`. -/
def dictIndexOpt (keys : List String) (n : Option String) : Except Err String :=
  match n with
  | none => .error (.keyError "None")
  | some s => dictIndex keys s

/-- The `assert name in Registry, 'Do not support ...'` pattern of
`chipparams` applied to an optional override name. -/
def checkRegistry (n : Option String) (keys : List String) (msg : String) :
    Except Err (Option String) :=
  match n with
  | none => .ok none
  | some s => if s ∈ keys then .ok (some s) else .error (.assertionError (msg ++ s))

/-- Return value of `chipparams`: the chip row plus the validated optional
override names. -/
structure ChipparamsOut where
  chip_params : ChipParams
  w_observer : Option String
  a_observer : Option String
  w_fakequantize : Option String
  a_fakequantize : Option String
  deriving DecidableEq, Repr

/-- `chipparams(chip, extra_qparams, FakeQuantize)` (source lines 395-417):
validate the optional observer / fake-quantize override names against the
registries (the fake-quantize membership check uses the registry passed in),
then fetch the chip row from the table. -/
def chipparams (chip : String) (e : ExtraQParams) (fqKeys : List String)
    (tbl : List (String × ChipParams)) : Except Err ChipparamsOut := do
  let wo ← checkRegistry e.w_observer ObserverDict "Do not support observer name: "
  let ao ← checkRegistry e.a_observer ObserverDict "Do not support observer name: "
  let wf ← checkRegistry e.w_fakequantize fqKeys "Do not support fakequantize name: "
  let af ← checkRegistry e.a_fakequantize fqKeys "Do not support fakequantize name: "
  match dictGet tbl chip with
  | some p => pure { chip_params := p, w_observer := wo, a_observer := ao
                     w_fakequantize := wf, a_fakequantize := af }
  | none => throw (Err.keyError chip)

/-- Scheme resolution for one side (source lines 192-211): without an
explicit override the chip default is used; with one, the bit width is
asserted to be in {4, 8} for BM1688 and to be 8 for BM1684X / BM1690 (no
check for any other chip), and the scheme is built from the dict. -/
def resolveScheme (chip : String) (u : Option SchemeDict) (dflt : QuantizeScheme) :
    Except Err QuantizeScheme :=
  match u with
  | none => .ok dflt
  | some d =>
    if chip = "BM1688" ∧ ¬(d.bit = 4 ∨ d.bit = 8) then
      .error (.assertionError "unsupported data type")
    else if (chip = "BM1684X" ∨ chip = "BM1690") ∧ ¬d.bit = 8 then
      .error (.assertionError "unsupported data type")
    else .ok d.toScheme

/-- `createQConfigForSophgo_activation` (source lines 419-425): resolve the
observer and fake-quantize names, build the fixed symmetric per-layer scheme
with the given bit width, and return a `QConfig` whose weight side is `None`. -/
def createQConfigForSophgo_activation (bit_num : Option Nat)
    (a_fakequantize a_observer : Option String) : Except Err QConfig :=
  match dictIndexOpt ObserverDict a_observer with
  | .error er => .error er
  | .ok aob =>
    match dictIndexOpt FakeQuantizeDict a_fakequantize with
    | .error er => .error er
    | .ok afq =>
      .ok { activation := .fq { fakequantize := afq, observer := aob, fakeq_params := []
                                scheme := { symmetry := true, per_channel := false
                                            pot_scale := false, bit := bit_num
                                            symmetric_range := false, kwargs := [] } }
            weight := .none }

/-- `createQConfigForSophgo_weight` (source lines 427-433): like the
activation variant but with `symmetric_range=True` in the scheme and an
activation side of `torch.nn.Identity` (so the global activation config
applies at that site). -/
def createQConfigForSophgo_weight (bit_num : Option Nat)
    (w_fakequantize w_observer : Option String) : Except Err QConfig :=
  match dictIndexOpt ObserverDict w_observer with
  | .error er => .error er
  | .ok wob =>
    match dictIndexOpt FakeQuantizeDict w_fakequantize with
    | .error er => .error er
    | .ok wfq =>
      .ok { activation := .identity
            weight := .fq { fakequantize := wfq, observer := wob, fakeq_params := []
                            scheme := { symmetry := true, per_channel := false
                                        pot_scale := false, bit := bit_num
                                        symmetric_range := true, kwargs := [] } } }

/-- Dispatch on the `mode` field of one override spec (the loop bodies at
source lines 268-280 and 297-309): `"activation"` and `"weight"` build the
single-sided entries, anything else raises `ValueError` (the message in the
source says the mode should be "activation" or "weight"). -/
def processOverrideSpec (spec : OverrideSpec) : Except Err QConfig :=
  if spec.mode = some "activation" then
    createQConfigForSophgo_activation spec.bit spec.afakequantize spec.aobserver
  else if spec.mode = some "weight" then
    createQConfigForSophgo_weight spec.bit spec.wfakequantize spec.wobserver
  else
    .error (.valueError "invalid mode: mode should be activation or weight")

/-- The `object_type` / `module_name` override loops: process each spec in
order and assign the resulting entry into the accumulating dict. -/
def applyNamedOverrides : List (String × OverrideSpec) → List (String × QConfig) →
    Except Err (List (String × QConfig))
  | [], acc => .ok acc
  | (name, spec) :: rest, acc =>
    match processOverrideSpec spec with
    | .error er => .error er
    | .ok qc => applyNamedOverrides rest (dictSet acc name qc)

/-- `createQConfig` (source lines 435-456): a full both-sides entry from
explicit names, optional scheme dicts (`None` selects the hard-coded default
schemes) and extra parameter dicts. -/
def createQConfig (w_fakequantize a_fakequantize w_observer a_observer : String)
    (w_qscheme a_qscheme : Option SchemeDict)
    (w_fakeq_params a_fakeq_params : List (String × Nat))
    (w_observer_extra_args a_observer_extra_args : List (String × Nat)) :
    Except Err QConfig := do
  let wob ← dictIndex ObserverDict w_observer
  let wfq ← dictIndex FakeQuantizeDict w_fakequantize
  let wqs :=
    match w_qscheme with
    | some d => d.toScheme
    | none => { symmetry := true, per_channel := true, pot_scale := false
                bit := some 8, symmetric_range := true, kwargs := [] }
  let wqs := { wqs with kwargs := dictUpdate wqs.kwargs w_observer_extra_args }
  let aob ← dictIndex ObserverDict a_observer
  let afq ← dictIndex FakeQuantizeDict a_fakequantize
  let aqs :=
    match a_qscheme with
    | some d => d.toScheme
    | none => { symmetry := true, per_channel := false, pot_scale := false
                bit := some 8, symmetric_range := false, kwargs := [] }
  let aqs := { aqs with kwargs := dictUpdate aqs.kwargs a_observer_extra_args }
  pure { activation := .fq { fakequantize := afq, observer := aob
                             fakeq_params := a_fakeq_params, scheme := aqs }
         weight := .fq { fakequantize := wfq, observer := wob
                         fakeq_params := w_fakeq_params, scheme := wqs } }

/-- The literal scheme dict of the int4 path. -/
def int4SchemeDict : SchemeDict :=
  { bit := 4, symmetry := true, per_channel := false, pot_scale := false
    symmetric_range := none }

/-- The literal scheme dict of the int8 path. -/
def int8SchemeDict : SchemeDict :=
  { bit := 8, symmetry := true, per_channel := false, pot_scale := false
    symmetric_range := none }

/-- The literal scheme dict of the f16 path. -/
def f16SchemeDict : SchemeDict :=
  { bit := 16, symmetry := true, per_channel := false, pot_scale := false
    symmetric_range := none }

/-- The bulk-override entry installed for every name in `int4_op`. -/
def int4Qconfig : QConfig :=
  { activation := .fq { fakequantize := "LearnableFakeQuantize", observer := "EMAMinMaxObserver"
                        fakeq_params := [], scheme := int4SchemeDict.toScheme }
    weight := .fq { fakequantize := "LearnableFakeQuantize", observer := "MinMaxObserver"
                    fakeq_params := [], scheme := int4SchemeDict.toScheme } }

/-- The bulk-override entry installed for every name in `int8_op`. -/
def int8Qconfig : QConfig :=
  { activation := .fq { fakequantize := "LearnableFakeQuantize", observer := "EMAMinMaxObserver"
                        fakeq_params := [], scheme := int8SchemeDict.toScheme }
    weight := .fq { fakequantize := "LearnableFakeQuantize", observer := "MinMaxObserver"
                    fakeq_params := [], scheme := int8SchemeDict.toScheme } }

/-- The bulk-override entry installed for every name in `f16_op`: the
`Fp16FakeQuantize` algorithm on both sides. -/
def f16Qconfig : QConfig :=
  { activation := .fq { fakequantize := "Fp16FakeQuantize", observer := "EMAMinMaxObserver"
                        fakeq_params := [], scheme := f16SchemeDict.toScheme }
    weight := .fq { fakequantize := "Fp16FakeQuantize", observer := "MinMaxObserver"
                    fakeq_params := [], scheme := f16SchemeDict.toScheme } }

/-- The int4/int8/f16 bulk-override passes (source lines 311-392): for each
nonempty list build the entry with `createQConfig` and assign it under every
listed module name, in this order, after the `module_name` overrides. -/
def applyBulk (e : ExtraQParams) (mn : List (String × QConfig)) :
    Except Err (List (String × QConfig)) := do
  let mn1 ←
    if e.int4_op.isEmpty then pure mn
    else do
      let qc ← createQConfig "LearnableFakeQuantize" "LearnableFakeQuantize"
        "MinMaxObserver" "EMAMinMaxObserver" (some int4SchemeDict) (some int4SchemeDict)
        [] [] [] []
      pure (e.int4_op.foldl (fun acc n => dictSet acc n qc) mn)
  let mn2 ←
    if e.int8_op.isEmpty then pure mn1
    else do
      let qc ← createQConfig "LearnableFakeQuantize" "LearnableFakeQuantize"
        "MinMaxObserver" "EMAMinMaxObserver" (some int8SchemeDict) (some int8SchemeDict)
        [] [] [] []
      pure (e.int8_op.foldl (fun acc n => dictSet acc n qc) mn1)
  let mn3 ←
    if e.f16_op.isEmpty then pure mn2
    else do
      let qc ← createQConfig "Fp16FakeQuantize" "Fp16FakeQuantize"
        "MinMaxObserver" "EMAMinMaxObserver" (some f16SchemeDict) (some f16SchemeDict)
        [] [] [] []
      pure (e.f16_op.foldl (fun acc n => dictSet acc n qc) mn2)
  pure mn3

/-- Everything of `get_qconfig_by_platform` after the scheme/extra-args step:
fall back to the chip defaults for missing fake-quantize / observer names,
build the default entry (a `QuantizeScheme` object is always truthy in
Python, so the scheme-present branch of lines 236-244 is the one taken),
check the `weight_only`/`"CNN"` assertion, then apply the `object_type`,
`module_name` and bulk overrides in that order. -/
def buildConfig (qd : QuantDict) (e : ExtraQParams) (cp : ChipparamsOut)
    (w1 a1 : QuantizeScheme) : Except Err ResolvedConfig :=
  let wfq := cp.w_fakequantize.getD cp.chip_params.default_weight_quantize
  let afq := cp.a_fakequantize.getD cp.chip_params.default_act_quantize
  let wob := cp.w_observer.getD cp.chip_params.default_weight_observer
  let aob := cp.a_observer.getD cp.chip_params.default_act_observer
  let w_qconfig := QCSide.fq { fakequantize := wfq, observer := wob
                               fakeq_params := e.w_fakeq_params, scheme := w1 }
  let a_qconfig := QCSide.fq { fakequantize := afq, observer := aob
                               fakeq_params := e.a_fakeq_params, scheme := a1 }
  if qd.quantmode = "weight_only" ∧ qd.strategy = "CNN" then
    .error (Err.assertionError "unsupport this combination")
  else
    match applyNamedOverrides e.object_type [] with
    | .error er => .error er
    | .ok ot =>
      match applyNamedOverrides e.module_name [] with
      | .error er => .error er
      | .ok mn =>
        match applyBulk e mn with
        | .error er => .error er
        | .ok mn2 =>
          .ok { default := { activation := a_qconfig, weight := w_qconfig }
                object_type := ot, module_name := mn2 }

/-- Replace the default weight scheme of one chip row in place (the effect of
`w_qscheme.kwargs.update(...)` when `w_qscheme` aliases the table's default
scheme object). -/
def setWScheme (tbl : List (String × ChipParams)) (chip : String) (s : QuantizeScheme) :
    List (String × ChipParams) :=
  tbl.map fun p => if p.1 = chip then (p.1, { p.2 with w_qscheme := s }) else p

/-- Replace the default activation scheme of one chip row in place. -/
def setAScheme (tbl : List (String × ChipParams)) (chip : String) (s : QuantizeScheme) :
    List (String × ChipParams) :=
  tbl.map fun p => if p.1 = chip then (p.1, { p.2 with a_qscheme := s }) else p

/-- The body of `get_qconfig_by_platform` for a chip recognized by the
if/elif chain.  Returns the chip-profile table as it stands after the call
(the observer extra args are merged into the resolved schemes in place, so
when no explicit scheme override was given the merge hits the table's
default scheme object) together with the result. -/
def resolveForChip (qd : QuantDict) (e : ExtraQParams)
    (tbl : List (String × ChipParams)) (fqKeys : List String) :
    List (String × ChipParams) × Except Err ResolvedConfig :=
  match chipparams qd.chip e fqKeys tbl with
  | .error er => (tbl, .error er)
  | .ok cp =>
    match resolveScheme qd.chip e.w_qscheme cp.chip_params.w_qscheme with
    | .error er => (tbl, .error er)
    | .ok w0 =>
      match resolveScheme qd.chip e.a_qscheme cp.chip_params.a_qscheme with
      | .error er => (tbl, .error er)
      | .ok a0 =>
        let w1 := { w0 with kwargs := dictUpdate w0.kwargs e.w_observer_extra_args }
        let a1 := { a0 with kwargs := dictUpdate a0.kwargs e.a_observer_extra_args }
        let tbl1 := if e.w_qscheme.isNone then setWScheme tbl qd.chip w1 else tbl
        let tbl2 := if e.a_qscheme.isNone then setAScheme tbl1 qd.chip a1 else tbl1
        (tbl2, buildConfig qd e cp w1 a1)

/-- `get_qconfig_by_platform(quant_dict, extra_qparams)` (source lines
145-393).  The chip dispatch mirrors the if/elif chain; an unrecognized chip
only logs, leaving `chip_params` (and the other `chipparams` results)
unbound, so the call then dies with `UnboundLocalError`: on `chip_params` at
line 194/204 when a scheme override is missing, else on `w_fakequantize` at
line 221.  The chip-profile table is threaded explicitly to expose the
in-place kwargs merge. -/
def get_qconfig_by_platform (qd : QuantDict) (e : ExtraQParams)
    (tbl : List (String × ChipParams)) :
    List (String × ChipParams) × Except Err ResolvedConfig :=
  if qd.chip = "BM1688" then resolveForChip qd e tbl FakeQuantizeDict_Chip
  else if qd.chip = "BM1684X" then resolveForChip qd e tbl FakeQuantizeDict_Chip
  else if qd.chip = "CV183X" then resolveForChip qd e tbl FakeQuantizeDict_Chip
  else if qd.chip = "BM1690" then resolveForChip qd e tbl FakeQuantizeDict_Chip
  else if qd.chip = "Academic" then resolveForChip qd e tbl FakeQuantizeDict
  else
    (tbl, .error (.nameError
      (if e.w_qscheme.isNone || e.a_qscheme.isNone then "chip_params" else "w_fakequantize")))

/-- A `torch.fx` graph node, restricted to the fields the graph-preparer
passes read or write: the operation kind and the target identifier. -/
structure Node where
  op : String
  target : String
  deriving DecidableEq, Repr

/-- A named submodule.  `addr` is the object identity (heap address): Python
`deepcopy` produces an object with the same state at a fresh address, so two
modules are structurally independent (mutating one cannot affect the other)
exactly when their addresses differ.  `state` stands for the module's
mutable attribute dictionary. -/
structure Mod where
  addr : Nat
  state : List (String × Int)
  deriving DecidableEq, Repr

def dfltNode : Node := { op := "", target := "" }

/-- `str(idx)` / the fresh name `node.target + '_dup' + str(idx)` given to
the `idx`-th occurrence of a reused target. -/
def newName (t : String) (k : Nat) : String := t ++ "_dup" ++ Nat.repr k

/-- Number of `call_module` nodes targeting `t` in the whole graph. -/
def cmCount (nodes : List Node) (t : String) : Nat :=
  (nodes.filter fun m => m.op = "call_module" ∧ m.target = t).length

/-- Number of `call_module` nodes targeting `t` strictly before index `i`. -/
def cmCountBefore (nodes : List Node) (t : String) (i : Nat) : Nat :=
  ((nodes.take i).filter fun m => m.op = "call_module" ∧ m.target = t).length

/-- Phase 1 of `duplicate_reused_nodes` (source lines 509-516): the
`target_dict` accumulation loop, keeping the per-target node-list lengths.
A first sighting inserts a fresh key (`target_dict[node.target] = [node]`,
which on the association list is an append, exactly what `dictSet` does for
a missing key); a repeat sighting appends to the group
(`target_dict[node.target].append(node)`), i.e. bumps the count.  Keys end
up in first-occurrence order, as in a Python dict. -/
def targetCounts : List Node → List (String × Nat) → List (String × Nat)
  | [], acc => acc
  | n :: rest, acc =>
    if n.op = "call_module" then
      match dictGet acc n.target with
      | none => targetCounts rest (dictSet acc n.target 1)
      | some k => targetCounts rest (dictSet acc n.target (k + 1))
    else targetCounts rest acc

/-- The inner loop of phase 2 for one group of reused nodes: for occurrence
indices `idx, idx+1, ...` (`r` of them), deep-copy the group's module `m`
to consecutive fresh addresses and record it under `t + '_dup' + str(idx)`. -/
def groupEntries (t : String) (m : Mod) : Nat → Nat → Nat → List (String × Mod)
  | _, _, 0 => []
  | idx, fresh, r + 1 =>
    (newName t idx, { addr := fresh, state := m.state }) ::
      groupEntries t m (idx + 1) (fresh + 1) r

/-- Phase 2 of `duplicate_reused_nodes` (source lines 517-524): walk
`target_dict` in key (first-occurrence) order; for every group with more
than one node, look the original module up (`modules[node.target]` — the
node's target is still the original key when the copy is taken, and a
missing key raises `KeyError` at the group's first duplicate, before any
entry of that group is added) and emit one clone per occurrence index
`idx ≥ 1`.  `dup_modules` therefore receives its entries group by group,
with `deepcopy` allocating fresh addresses in that same order. -/
def dupLoop : List (String × Nat) → List (String × Mod) → Nat →
    Except Err (List (String × Mod))
  | [], _, _ => .ok []
  | (t, cnt) :: rest, modules, fresh =>
    if 1 < cnt then
      match dictGet modules t with
      | none => .error (.keyError t)
      | some m =>
        match dupLoop rest modules (fresh + (cnt - 1)) with
        | .error er => .error er
        | .ok ds => .ok (groupEntries t m 1 fresh (cnt - 1) ++ ds)
    else
      dupLoop rest modules fresh

/-- The effect of phase 2 on the graph's nodes.  The source renames the
nodes group by group (`node.target += '_dup' + str(idx)`), but each
`call_module` node is renamed exactly once, to a name depending only on its
own target and its occurrence index among same-target nodes, and
non-`call_module` nodes are untouched; so on success the mutated node list
equals this single pass that renames each node by its occurrence count
(`seen`). -/
def renameNodes : List Node → List (String × Nat) → List Node
  | [], _ => []
  | n :: rest, seen =>
    if n.op = "call_module" then
      match (dictGet seen n.target).getD 0 with
      | 0 => n :: renameNodes rest (dictSet seen n.target 1)
      | k + 1 => { n with target := newName n.target (k + 1) } ::
          renameNodes rest (dictSet seen n.target (k + 2))
    else n :: renameNodes rest seen

/-- `duplicate_reused_nodes(graph, modules)` (source lines 507-526): group
the `call_module` nodes by target, then, group by group, keep the first
occurrence and rename every later occurrence to a `_dup`-suffixed name
while registering a deep copy of the group's module under that name.
`fresh` is the next unused heap address (clone objects get consecutive
addresses from `fresh`, in the order the copies are taken).  On a
`KeyError` the exception propagates, discarding the partial table.  The
final `graph.lint()` of the source only validates the graph and is a no-op
here. -/
def duplicate_reused_nodes (nodes : List Node) (modules : List (String × Mod))
    (fresh : Nat) : Except Err (List Node × List (String × Mod)) :=
  match dupLoop (targetCounts nodes []) modules fresh with
  | .error er => .error er
  | .ok ds => .ok (renameNodes nodes [], ds)

/-- Specification helper: the (fresh name, original target) pair of every
retargeted node, listed in graph order.  This is not how the source orders
the `dup_modules` table (that is filled group by group, see `dupLoop`); it
only enumerates which renames happen, one pair per retargeted node. -/
def renamedPairs : List Node → List (String × Nat) → List (String × String)
  | [], _ => []
  | n :: rest, seen =>
    if n.op = "call_module" then
      match (dictGet seen n.target).getD 0 with
      | 0 => renamedPairs rest (dictSet seen n.target 1)
      | k + 1 => (newName n.target (k + 1), n.target) ::
          renamedPairs rest (dictSet seen n.target (k + 2))
    else renamedPairs rest seen

/-- Specification helper: how many clones phase 2 emits from the
`target_dict` counts — one per occurrence beyond the first in every group. -/
def sumPred (d : List (String × Nat)) : Nat := (d.map fun p => p.2 - 1).sum

/-- A model attribute tree: `leaf` is an opaque value (e.g. a tensor),
`obj` an object with named attributes. -/
inductive PyObj where
  | leaf (v : Int)
  | obj (attrs : List (String × PyObj))

/-- Python `getattr(target, att)`: missing attributes raise
`AttributeError`. -/
def getAttr : PyObj → String → Except Err PyObj
  | .leaf _, a => .error (.attributeError a)
  | .obj attrs, a =>
    match dictGet attrs a with
    | some o => .ok o
    | none => .error (.attributeError a)

/-- `attrs.split('.')` on the character list: split at every dot, keeping
empty segments, so `"" ↦ [""]` and `"a.b" ↦ ["a", "b"]` exactly as in
Python. -/
def splitDotChars : List Char → List (List Char)
  | [] => [[]]
  | c :: rest =>
    match splitDotChars rest with
    | [] => [[]]
    | cur :: parts => if c = '.' then [] :: cur :: parts else (c :: cur) :: parts

/-- `attrs.split('.')`. -/
def splitDot (s : String) : List String :=
  (splitDotChars s.data).map fun l => { data := l }

/-- `_get_attrs(target, attrs)` (source lines 529-533): split the dotted
path and look up each segment in turn. -/
def getAttrs (target : PyObj) (attrs : String) : Except Err PyObj :=
  (splitDot attrs).foldlM getAttr target

/-- The node loop of `prepare_constant_dict`, with the accumulating
`constant_dict` made explicit. -/
def constantLoop : List Node → PyObj → List (String × PyObj) →
    Except Err (List (String × PyObj))
  | [], _, d => .ok d
  | n :: rest, model, d =>
    if n.op = "get_attr" then
      match getAttrs model n.target with
      | .error er => .error er
      | .ok v => constantLoop rest model (dictSet d n.target v)
    else constantLoop rest model d

/-- `prepare_constant_dict(graph, model)` (source lines 528-538): for every
`get_attr` node, resolve the dotted target path against the model and record
the value under the node's target string. -/
def prepare_constant_dict (nodes : List Node) (model : PyObj) :
    Except Err (List (String × PyObj)) :=
  constantLoop nodes model []

/-- `true` exactly when the embedded call did not raise. -/
def isOkE {α : Type} : Except Err α → Bool
  | .ok _ => true
  | .error _ => false

/-- The decimal digit list of `n`, most significant first; the closed form
of `Nat.toDigits 10 n` and hence of `Nat.repr`. -/
def natDigits (n : Nat) : List Char :=
  if n < 10 then [Nat.digitChar n]
  else natDigits (n / 10) ++ [Nat.digitChar (n % 10)]
decreasing_by
  exact Nat.div_lt_self (by omega) (by omega)

/-- Decimal value of a digit list, most significant first. -/
def digitsVal (l : List Char) : Nat :=
  l.foldl (fun a c => 10 * a + (c.toNat - 48)) 0

/-! ### Lemmas about the bulk-override passes and config-resolution plumbing -/

/-- The pure effect of the three bulk passes on the `module_name` table. -/
def bulkFold (e : ExtraQParams) (mn : List (String × QConfig)) : List (String × QConfig) :=
  let m1 := e.int4_op.foldl (fun acc n => dictSet acc n int4Qconfig) mn
  let m2 := e.int8_op.foldl (fun acc n => dictSet acc n int8Qconfig) m1
  e.f16_op.foldl (fun acc n => dictSet acc n f16Qconfig) m2

/-! ### Lemmas about the deduplication pass -/

/-- The occurrence index `renameNodes` assigns to node `i`: count of earlier
`call_module` nodes with the same target, offset by the incoming `seen`
count. -/
def kIndex (nodes : List Node) (seen : List (String × Nat)) (i : Nat) : Nat :=
  (dictGet seen (nodes.getD i dfltNode).target).getD 0 +
    cmCountBefore nodes (nodes.getD i dfltNode).target i

/-- What `renameNodes` turns node `i` into: renamed with its occurrence index
when it is a reused `call_module` node, unchanged otherwise. -/
def expectedNode (nodes : List Node) (seen : List (String × Nat)) (i : Nat) : Node :=
  let n := nodes.getD i dfltNode
  if n.op = "call_module" ∧ kIndex nodes seen i ≠ 0 then
    { n with target := newName n.target (kIndex nodes seen i) }
  else n

/-! ### Claim theorems -/

def c2qd : QuantDict := { chip := "BM1688", strategy := "Transformer", quantmode := "weight_activation" }

def c2e : ExtraQParams := { emptyExtra with w_observer_extra_args := [("momentum", 1)] }

def c5qd : QuantDict := { chip := "NOTACHIP", strategy := "CNN", quantmode := "weight_activation" }

def c4qdA : QuantDict := { chip := "XYZ", strategy := "CNN", quantmode := "weight_only" }

def c4qdB : QuantDict := { chip := "BM1688", strategy := "CNN", quantmode := "weight_only" }

def c4eB : ExtraQParams := { emptyExtra with w_observer := some "Bogus" }

def c3e : ExtraQParams :=
  { emptyExtra with
    w_qscheme := some { bit := 5, symmetry := true, per_channel := true, pot_scale := false
                        symmetric_range := none } }

/-- `qc` is a full both-sides entry whose weight and activation schemes
share the bit width `b`. -/
def bothSidesBit (qc : QConfig) (b : Nat) : Prop :=
  ∃ wc ac, qc.weight = QCSide.fq wc ∧ qc.activation = QCSide.fq ac ∧
    wc.scheme.bit = some b ∧ ac.scheme.bit = some b

/-- Both sides of `qc` use the fake-quantize algorithm `fq`. -/
def sidesAlgo (qc : QConfig) (fq : String) : Prop :=
  ∃ wc ac, qc.weight = QCSide.fq wc ∧ qc.activation = QCSide.fq ac ∧
    wc.fakequantize = fq ∧ ac.fakequantize = fq

def c1qd : QuantDict := { chip := "BM1688", strategy := "CNN", quantmode := "weight_activation" }

def c1mnSpec : OverrideSpec :=
  { mode := some "weight", bit := some 8, afakequantize := none, aobserver := none
    wfakequantize := some "FixedFakeQuantize", wobserver := some "MinMaxObserver" }

def c1e : ExtraQParams :=
  { emptyExtra with module_name := [("layer1", c1mnSpec)], int8_op := ["layer1"] }

def dfltResolved : ResolvedConfig :=
  { default := { activation := .none, weight := .none }, object_type := [], module_name := [] }

def c1cfg : ResolvedConfig :=
  ((get_qconfig_by_platform c1qd c1e ParamsTable).2).toOption.getD dfltResolved

def c8spec : OverrideSpec :=
  { mode := some "weight", bit := some 8, afakequantize := none, aobserver := none
    wfakequantize := some "FixedFakeQuantize", wobserver := some "MinMaxObserver" }

def dfltQConfig : QConfig := { activation := .none, weight := .none }

def c10act : QConfig :=
  (createQConfigForSophgo_activation (some 4) (some "LearnableFakeQuantize")
    (some "MinMaxObserver")).toOption.getD dfltQConfig

def c10wgt : QConfig :=
  (createQConfigForSophgo_weight (some 4) (some "FixedFakeQuantize")
    (some "MinMaxObserver")).toOption.getD dfltQConfig

def c7model : PyObj :=
  .obj [("backbone", .obj [("norm", .obj [("running_stat", .leaf 7)])])]

def c7nodes : List Node := [{ op := "get_attr", target := "backbone.norm.running_stat" }]

def c7dict : List (String × PyObj) :=
  (prepare_constant_dict c7nodes c7model).toOption.getD []

def c6badNodes : List Node :=
  [{ op := "call_module", target := "a_dup1" }, { op := "call_module", target := "a_dup1" },
   { op := "call_module", target := "a" }, { op := "call_module", target := "a" }]

def c6badModules : List (String × Mod) :=
  [("a", { addr := 0, state := [] }), ("a_dup1", { addr := 1, state := [] })]

/-- The node list `duplicate_reused_nodes` produces on `c6badNodes`. -/
def c6badAfter : List Node :=
  [{ op := "call_module", target := "a_dup1" },
   { op := "call_module", target := "a_dup1_dup1" },
   { op := "call_module", target := "a" },
   { op := "call_module", target := "a_dup1" }]

def c6nodes : List Node :=
  [{ op := "call_module", target := "conv1" }, { op := "call_module", target := "conv1" },
   { op := "call_module", target := "conv1" }]

def c6modules : List (String × Mod) := [("conv1", { addr := 0, state := [("w", 5)] })]

def c6res : List Node × List (String × Mod) :=
  (duplicate_reused_nodes c6nodes c6modules 1).toOption.getD ([], [])

def c6ns : List Node := c6res.1

def c6ds : List (String × Mod) := c6res.2

@[simp] theorem dictGet_nil {α : Type} (k : String) :
    dictGet ([] : List (String × α)) k = none := rfl

theorem dictGet_dictSet_self {α : Type} (d : List (String × α)) (k : String) (v : α) :
    dictGet (dictSet d k v) k = some v := by
  induction d with
  | nil => simp [dictSet, dictGet]
  | cons p rest ih =>
    obtain ⟨k2, v2⟩ := p
    by_cases h : k2 = k
    · simp [dictSet, dictGet, h]
    · simp [dictSet, dictGet, h, ih]

theorem dictGet_dictSet_ne {α : Type} (d : List (String × α)) (k k2 : String) (v : α)
    (h : k2 ≠ k) : dictGet (dictSet d k v) k2 = dictGet d k2 := by
  have hk : ¬k = k2 := fun hh => h hh.symm
  induction d with
  | nil => simp [dictSet, dictGet, hk]
  | cons p rest ih =>
    obtain ⟨k3, v3⟩ := p
    by_cases h3 : k3 = k
    · subst h3
      simp [dictSet, dictGet, hk]
    · by_cases h4 : k3 = k2 <;> simp [dictSet, dictGet, h3, h4, hk, h, ih]

theorem mem_dictSet {α : Type} (d : List (String × α)) (k : String) (v : α) (p : String × α)
    (h : p ∈ dictSet d k v) : p = (k, v) ∨ p ∈ d := by
  induction d with
  | nil => simpa [dictSet] using h
  | cons q rest ih =>
    obtain ⟨k2, v2⟩ := q
    by_cases h2 : k2 = k
    · simp only [dictSet, if_pos h2, List.mem_cons] at h
      rcases h with h | h
      · exact Or.inl h
      · exact Or.inr (List.mem_cons_of_mem _ h)
    · simp only [dictSet, if_neg h2, List.mem_cons] at h
      rcases h with h | h
      · exact Or.inr (h ▸ List.mem_cons_self _ _)
      · rcases ih h with h | h
        · exact Or.inl h
        · exact Or.inr (List.mem_cons_of_mem _ h)

theorem dictGet_isSome_dictSet {α : Type} (d : List (String × α)) (k k2 : String) (v : α)
    (h : (dictGet d k2).isSome) : (dictGet (dictSet d k v) k2).isSome := by
  by_cases hk : k2 = k
  · subst hk
    simp [dictGet_dictSet_self]
  · rwa [dictGet_dictSet_ne _ _ _ _ hk]

theorem dictGet_mem {α : Type} (d : List (String × α)) (k : String) (v : α)
    (h : dictGet d k = some v) : (k, v) ∈ d := by
  induction d with
  | nil => simp [dictGet] at h
  | cons q rest ih =>
    obtain ⟨k2, v2⟩ := q
    by_cases h2 : k2 = k
    · subst h2
      simp only [dictGet, if_pos] at h
      cases h
      exact List.mem_cons_self _ _
    · simp only [dictGet, if_neg h2] at h
      exact List.mem_cons_of_mem _ (ih h)

theorem natDigits_lt (n : Nat) (h : n < 10) : natDigits n = [Nat.digitChar n] := by
  rw [natDigits]
  simp [h]

theorem natDigits_ge (n : Nat) (h : ¬n < 10) :
    natDigits n = natDigits (n / 10) ++ [Nat.digitChar (n % 10)] := by
  rw [natDigits]
  simp [h]

theorem toDigitsCore_eq_natDigits (n : Nat) :
    ∀ fuel ds, n < fuel → Nat.toDigitsCore 10 fuel n ds = natDigits n ++ ds := by
  induction n using Nat.strong_induction_on with
  | _ n ih =>
    intro fuel ds hfuel
    match fuel, hfuel with
    | fuel + 1, hfuel =>
      rw [Nat.toDigitsCore]
      by_cases h10 : n < 10
      · have hdiv : n / 10 = 0 := Nat.div_eq_of_lt h10
        have hmod : n % 10 = n := Nat.mod_eq_of_lt h10
        simp only [hdiv, if_pos rfl, hmod]
        rw [natDigits_lt n h10]
        rfl
      · have hdiv : ¬(n / 10 = 0) := by omega
        simp only [if_neg hdiv]
        have hlt : n / 10 < n := Nat.div_lt_self (by omega) (by omega)
        rw [ih (n / 10) hlt fuel (Nat.digitChar (n % 10) :: ds) (by omega)]
        rw [natDigits_ge n h10]
        simp

theorem natRepr_eq_natDigits (n : Nat) : Nat.repr n = (natDigits n).asString := by
  rw [Nat.repr, Nat.toDigits, toDigitsCore_eq_natDigits n (n + 1) [] (Nat.lt_succ_self n)]
  simp

theorem digitChar_val (n : Nat) (h : n < 10) : (Nat.digitChar n).toNat - 48 = n := by
  interval_cases n <;> rfl

theorem foldl_digitsVal (l : List Char) (a : Nat) :
    l.foldl (fun a c => 10 * a + (c.toNat - 48)) a =
      a * 10 ^ l.length + digitsVal l := by
  induction l generalizing a with
  | nil => simp [digitsVal]
  | cons c rest ih =>
    have hcons : digitsVal (c :: rest) =
        List.foldl (fun a c => 10 * a + (c.toNat - 48)) (10 * 0 + (c.toNat - 48)) rest := rfl
    rw [List.foldl_cons, ih, List.length_cons, hcons, ih]
    ring

theorem digitsVal_natDigits (n : Nat) : digitsVal (natDigits n) = n := by
  induction n using Nat.strong_induction_on with
  | _ n ih =>
    by_cases h10 : n < 10
    · rw [natDigits_lt n h10]
      simp [digitsVal, digitChar_val n h10]
    · rw [natDigits_ge n h10]
      have hlt : n / 10 < n := Nat.div_lt_self (by omega) (by omega)
      simp only [digitsVal, List.foldl_append]
      rw [foldl_digitsVal [Nat.digitChar (n % 10)]
            (List.foldl (fun a c => 10 * a + (c.toNat - 48)) 0 (natDigits (n / 10)))]
      have hv : List.foldl (fun a c => 10 * a + (c.toNat - 48)) 0 (natDigits (n / 10)) = n / 10 :=
        ih (n / 10) hlt
      rw [hv]
      simp [digitsVal, digitChar_val (n % 10) (Nat.mod_lt n (by omega))]
      omega

theorem natRepr_injective (m n : Nat) (h : Nat.repr m = Nat.repr n) : m = n := by
  rw [natRepr_eq_natDigits, natRepr_eq_natDigits] at h
  have hl : natDigits m = natDigits n := by
    have := congrArg String.data h
    simpa [List.asString] using this
  have := congrArg digitsVal hl
  rwa [digitsVal_natDigits, digitsVal_natDigits] at this

theorem newName_ne (t : String) (k : Nat) : newName t k ≠ t := by
  intro h
  have hlen := congrArg String.length h
  rw [newName] at hlen
  have h4 : "_dup".length = 4 := rfl
  rw [String.length_append, String.length_append, h4] at hlen
  omega

theorem newName_inj_idx (t : String) (k1 k2 : Nat) (h : newName t k1 = newName t k2) :
    k1 = k2 := by
  rw [newName, newName] at h
  have hd := congrArg String.data h
  simp only [String.data_append] at hd
  have h1 := List.append_cancel_left hd
  exact natRepr_injective k1 k2 (String.ext h1)

theorem createQConfig_int4 :
    createQConfig "LearnableFakeQuantize" "LearnableFakeQuantize"
      "MinMaxObserver" "EMAMinMaxObserver" (some int4SchemeDict) (some int4SchemeDict)
      [] [] [] [] = .ok int4Qconfig := rfl

theorem createQConfig_int8 :
    createQConfig "LearnableFakeQuantize" "LearnableFakeQuantize"
      "MinMaxObserver" "EMAMinMaxObserver" (some int8SchemeDict) (some int8SchemeDict)
      [] [] [] [] = .ok int8Qconfig := rfl

theorem createQConfig_f16 :
    createQConfig "Fp16FakeQuantize" "Fp16FakeQuantize"
      "MinMaxObserver" "EMAMinMaxObserver" (some f16SchemeDict) (some f16SchemeDict)
      [] [] [] [] = .ok f16Qconfig := rfl

theorem applyBulk_eq (e : ExtraQParams) (mn : List (String × QConfig)) :
    applyBulk e mn = .ok (bulkFold e mn) := by
  unfold applyBulk bulkFold
  rcases h4 : e.int4_op with _ | ⟨a, as⟩ <;> rcases h8 : e.int8_op with _ | ⟨b, bs⟩ <;>
    rcases h16 : e.f16_op with _ | ⟨c, cs⟩ <;>
      simp [createQConfig_int4, createQConfig_int8, createQConfig_f16,
        Bind.bind, Except.bind, Pure.pure, Except.pure]

theorem dictGet_foldl_dictSet {α : Type} (names : List String) (qc : α)
    (d : List (String × α)) (n : String) :
    dictGet (names.foldl (fun acc x => dictSet acc x qc) d) n =
      if n ∈ names then some qc else dictGet d n := by
  induction names generalizing d with
  | nil => simp
  | cons x xs ih =>
    rw [List.foldl_cons, ih]
    by_cases hx : n ∈ xs
    · simp [hx]
    · by_cases hxn : x = n
      · subst hxn
        simp [hx, dictGet_dictSet_self]
      · have hne : n ≠ x := fun hh => hxn hh.symm
        simp [hx, hne, dictGet_dictSet_ne _ _ _ _ hne]

theorem bulkFold_lookup (e : ExtraQParams) (mn : List (String × QConfig)) (n : String) :
    dictGet (bulkFold e mn) n =
      if n ∈ e.f16_op then some f16Qconfig
      else if n ∈ e.int8_op then some int8Qconfig
      else if n ∈ e.int4_op then some int4Qconfig
      else dictGet mn n := by
  unfold bulkFold
  rw [dictGet_foldl_dictSet, dictGet_foldl_dictSet, dictGet_foldl_dictSet]

theorem buildConfig_ok (qd : QuantDict) (e : ExtraQParams) (cp : ChipparamsOut)
    (w1 a1 : QuantizeScheme) (cfg : ResolvedConfig)
    (h : buildConfig qd e cp w1 a1 = .ok cfg) :
    ∃ ot mn, applyNamedOverrides e.object_type [] = .ok ot ∧
      applyNamedOverrides e.module_name [] = .ok mn ∧
      cfg.object_type = ot ∧ cfg.module_name = bulkFold e mn := by
  unfold buildConfig at h
  split at h
  · exact absurd h (by simp)
  · rcases hot : applyNamedOverrides e.object_type [] with er | ot
    · rw [hot] at h
      simp at h
    · rw [hot] at h
      dsimp only at h
      rcases hmn : applyNamedOverrides e.module_name [] with er | mn
      · rw [hmn] at h
        simp at h
      · rw [hmn] at h
        dsimp only at h
        rw [applyBulk_eq] at h
        dsimp only at h
        cases h
        exact ⟨ot, mn, rfl, rfl, rfl, rfl⟩

theorem resolveForChip_ok (qd : QuantDict) (e : ExtraQParams)
    (tbl : List (String × ChipParams)) (fqKeys : List String) (cfg : ResolvedConfig)
    (h : (resolveForChip qd e tbl fqKeys).2 = .ok cfg) :
    ∃ cp w1 a1, buildConfig qd e cp w1 a1 = .ok cfg := by
  unfold resolveForChip at h
  rcases hc : chipparams qd.chip e fqKeys tbl with er | cp
  · rw [hc] at h
    simp at h
  · rw [hc] at h
    dsimp only at h
    rcases hw : resolveScheme qd.chip e.w_qscheme cp.chip_params.w_qscheme with er | w0
    · rw [hw] at h
      simp at h
    · rw [hw] at h
      dsimp only at h
      rcases ha : resolveScheme qd.chip e.a_qscheme cp.chip_params.a_qscheme with er | a0
      · rw [ha] at h
        simp at h
      · rw [ha] at h
        dsimp only at h
        exact ⟨cp, _, _, h⟩

theorem get_qconfig_ok (qd : QuantDict) (e : ExtraQParams)
    (tbl : List (String × ChipParams)) (cfg : ResolvedConfig)
    (h : (get_qconfig_by_platform qd e tbl).2 = .ok cfg) :
    ∃ cp w1 a1, buildConfig qd e cp w1 a1 = .ok cfg := by
  unfold get_qconfig_by_platform at h
  split at h
  · exact resolveForChip_ok _ _ _ _ _ h
  · split at h
    · exact resolveForChip_ok _ _ _ _ _ h
    · split at h
      · exact resolveForChip_ok _ _ _ _ _ h
      · split at h
        · exact resolveForChip_ok _ _ _ _ _ h
        · split at h
          · exact resolveForChip_ok _ _ _ _ _ h
          · exact absurd h (by simp)

theorem cmCountBefore_zero (nodes : List Node) (t : String) :
    cmCountBefore nodes t 0 = 0 := by
  simp [cmCountBefore]

theorem cmCountBefore_cons (n : Node) (rest : List Node) (t : String) (i : Nat) :
    cmCountBefore (n :: rest) t (i + 1) =
      (if n.op = "call_module" ∧ n.target = t then 1 else 0) + cmCountBefore rest t i := by
  unfold cmCountBefore
  rw [List.take_succ_cons, List.filter_cons]
  by_cases hp : n.op = "call_module" ∧ n.target = t
  · simp [hp]
    omega
  · simp [hp]

theorem kIndex_cons_cm (n : Node) (rest : List Node) (seen : List (String × Nat)) (i : Nat)
    (hcm : n.op = "call_module") :
    kIndex (n :: rest) seen (i + 1) =
      kIndex rest (dictSet seen n.target ((dictGet seen n.target).getD 0 + 1)) i := by
  unfold kIndex
  rw [List.getD_cons_succ, cmCountBefore_cons]
  by_cases ht : (rest.getD i dfltNode).target = n.target
  · rw [ht, dictGet_dictSet_self]
    simp [hcm]
    omega
  · have hne : (rest.getD i dfltNode).target ≠ n.target := ht
    rw [dictGet_dictSet_ne _ _ _ _ hne]
    have hne3 : ¬(n.op = "call_module" ∧ n.target = (rest.getD i dfltNode).target) := by
      rintro ⟨_, hh⟩
      exact hne hh.symm
    rw [if_neg hne3, Nat.zero_add]

theorem kIndex_cons_notcm (n : Node) (rest : List Node) (seen : List (String × Nat)) (i : Nat)
    (hcm : ¬n.op = "call_module") :
    kIndex (n :: rest) seen (i + 1) = kIndex rest seen i := by
  unfold kIndex
  rw [List.getD_cons_succ, cmCountBefore_cons]
  simp [hcm]

theorem expectedNode_cons_cm (n : Node) (rest : List Node) (seen : List (String × Nat)) (i : Nat)
    (hcm : n.op = "call_module") :
    expectedNode (n :: rest) seen (i + 1) =
      expectedNode rest (dictSet seen n.target ((dictGet seen n.target).getD 0 + 1)) i := by
  unfold expectedNode
  rw [kIndex_cons_cm n rest seen i hcm, List.getD_cons_succ]

theorem expectedNode_cons_notcm (n : Node) (rest : List Node) (seen : List (String × Nat))
    (i : Nat) (hcm : ¬n.op = "call_module") :
    expectedNode (n :: rest) seen (i + 1) = expectedNode rest seen i := by
  unfold expectedNode
  rw [kIndex_cons_notcm n rest seen i hcm, List.getD_cons_succ]

theorem cmCount_cons (n : Node) (rest : List Node) (t : String) :
    cmCount (n :: rest) t =
      (if n.op = "call_module" ∧ n.target = t then 1 else 0) + cmCount rest t := by
  unfold cmCount
  rw [List.filter_cons]
  by_cases hp : n.op = "call_module" ∧ n.target = t
  · simp [hp]
    omega
  · simp [hp]

theorem renameNodes_spec (nodes : List Node) :
    ∀ seen, (renameNodes nodes seen).length = nodes.length ∧
      ∀ i, i < nodes.length →
        (renameNodes nodes seen).getD i dfltNode = expectedNode nodes seen i := by
  induction nodes with
  | nil => exact fun seen => ⟨rfl, fun i hi => absurd hi (by simp)⟩
  | cons n rest ih =>
    intro seen
    unfold renameNodes
    by_cases hcm : n.op = "call_module"
    · rw [if_pos hcm]
      rcases hk : (dictGet seen n.target).getD 0 with _ | k
      · dsimp only
        obtain ⟨hlen, hlaw⟩ := ih (dictSet seen n.target 1)
        refine ⟨by simp [hlen], fun i hi => ?_⟩
        cases i with
        | zero =>
          unfold expectedNode kIndex
          simp [cmCountBefore_zero, hk]
        | succ i =>
          rw [List.getD_cons_succ, expectedNode_cons_cm n rest seen i hcm, hk]
          exact hlaw i (by simpa using hi)
      · dsimp only
        obtain ⟨hlen, hlaw⟩ := ih (dictSet seen n.target (k + 2))
        refine ⟨by simp [hlen], fun i hi => ?_⟩
        cases i with
        | zero =>
          unfold expectedNode kIndex
          simp [cmCountBefore_zero, hk, hcm]
        | succ i =>
          rw [List.getD_cons_succ, expectedNode_cons_cm n rest seen i hcm, hk]
          exact hlaw i (by simpa using hi)
    · rw [if_neg hcm]
      obtain ⟨hlen, hlaw⟩ := ih seen
      refine ⟨by simp [hlen], fun i hi => ?_⟩
      cases i with
      | zero =>
        unfold expectedNode
        simp [hcm]
      | succ i =>
        rw [List.getD_cons_succ, expectedNode_cons_notcm n rest seen i hcm]
        exact hlaw i (by simpa using hi)

theorem renamedPairs_mem (nodes : List Node) :
    ∀ seen i, i < nodes.length →
      (nodes.getD i dfltNode).op = "call_module" → kIndex nodes seen i ≠ 0 →
      (newName (nodes.getD i dfltNode).target (kIndex nodes seen i),
        (nodes.getD i dfltNode).target) ∈ renamedPairs nodes seen := by
  induction nodes with
  | nil => intro seen i hi; exact absurd hi (by simp)
  | cons n rest ih =>
    intro seen i hi hcm hk
    unfold renamedPairs
    cases i with
    | zero =>
      unfold kIndex at hk ⊢
      simp only [List.getD_cons_zero] at hcm hk ⊢
      rw [if_pos hcm]
      rw [cmCountBefore_zero, Nat.add_zero] at hk ⊢
      rcases hc : (dictGet seen n.target).getD 0 with _ | k
      · rw [hc] at hk
        exact absurd rfl hk
      · dsimp only
        exact List.mem_cons_self _ _
    | succ i =>
      unfold kIndex at hk ⊢
      simp only [List.getD_cons_succ] at hcm hk ⊢
      by_cases hcm2 : n.op = "call_module"
      · rw [if_pos hcm2]
        have hshift := kIndex_cons_cm n rest seen i hcm2
        unfold kIndex at hshift
        simp only [List.getD_cons_succ] at hshift
        rw [hshift] at hk ⊢
        rcases hc : (dictGet seen n.target).getD 0 with _ | k
        · rw [hc] at hk
          have hmem := ih (dictSet seen n.target (0 + 1)) i (by simpa using hi) hcm
          unfold kIndex at hmem
          dsimp only
          exact hmem hk
        · rw [hc] at hk
          have hmem := ih (dictSet seen n.target (k + 1 + 1)) i (by simpa using hi) hcm
          unfold kIndex at hmem
          dsimp only
          exact List.mem_cons_of_mem _ (hmem hk)
      · rw [if_neg hcm2]
        have hshift := kIndex_cons_notcm n rest seen i hcm2
        unfold kIndex at hshift
        simp only [List.getD_cons_succ] at hshift
        rw [hshift] at hk ⊢
        have hmem := ih seen i (by simpa using hi) hcm
        unfold kIndex at hmem
        exact hmem hk

theorem dictGet_none_not_key {α : Type} (d : List (String × α)) (k : String) :
    dictGet d k = none → k ∉ d.map Prod.fst := by
  induction d with
  | nil => intro _; simp
  | cons p rest ih =>
    intro h
    obtain ⟨k2, v2⟩ := p
    by_cases h2 : k2 = k
    · subst h2
      simp [dictGet] at h
    · simp only [dictGet, if_neg h2] at h
      simp only [List.map_cons, List.mem_cons]
      rintro (hk | hk)
      · exact h2 hk.symm
      · exact ih h hk

theorem dictSet_keys_of_none {α : Type} (d : List (String × α)) (k : String) (v : α) :
    dictGet d k = none → (dictSet d k v).map Prod.fst = d.map Prod.fst ++ [k] := by
  induction d with
  | nil => intro _; rfl
  | cons p rest ih =>
    intro h
    obtain ⟨k2, v2⟩ := p
    by_cases h2 : k2 = k
    · subst h2
      simp [dictGet] at h
    · simp only [dictGet, if_neg h2] at h
      simp only [dictSet, if_neg h2, List.map_cons, ih h, List.cons_append]

theorem dictSet_keys_of_some {α : Type} (d : List (String × α)) (k : String) (v w : α) :
    dictGet d k = some w → (dictSet d k v).map Prod.fst = d.map Prod.fst := by
  induction d with
  | nil => intro h; simp [dictGet] at h
  | cons p rest ih =>
    intro h
    obtain ⟨k2, v2⟩ := p
    by_cases h2 : k2 = k
    · subst h2
      simp [dictSet]
    · simp only [dictGet, if_neg h2] at h
      simp only [dictSet, if_neg h2, List.map_cons, ih h]

theorem dictGet_of_mem_nodup {α : Type} (d : List (String × α)) (k : String) (v : α) :
    (d.map Prod.fst).Nodup → (k, v) ∈ d → dictGet d k = some v := by
  induction d with
  | nil => intro _ h; simp at h
  | cons p rest ih =>
    intro hnd h
    obtain ⟨k2, v2⟩ := p
    simp only [List.map_cons, List.nodup_cons] at hnd
    rcases List.mem_cons.mp h with h | h
    · injection h with hk hv
      subst hk
      subst hv
      simp [dictGet]
    · by_cases h2 : k2 = k
      · subst h2
        exact absurd (List.mem_map.mpr ⟨(k2, v), h, rfl⟩) hnd.1
      · simp only [dictGet, if_neg h2]
        exact ih hnd.2 h

theorem targetCounts_keys_nodup (nodes : List Node) :
    ∀ acc : List (String × Nat), (acc.map Prod.fst).Nodup →
      ((targetCounts nodes acc).map Prod.fst).Nodup := by
  induction nodes with
  | nil => exact fun acc h => h
  | cons n rest ih =>
    intro acc hacc
    unfold targetCounts
    by_cases hcm : n.op = "call_module"
    · rw [if_pos hcm]
      rcases hg : dictGet acc n.target with _ | k
      · dsimp only
        refine ih _ ?_
        rw [dictSet_keys_of_none acc n.target 1 hg]
        have hnk := dictGet_none_not_key acc n.target hg
        refine List.Nodup.append hacc (List.nodup_singleton _) ?_
        intro a ha1 ha2
        rw [List.mem_singleton] at ha2
        subst ha2
        exact hnk ha1
      · dsimp only
        refine ih _ ?_
        rw [dictSet_keys_of_some acc n.target (k + 1) k hg]
        exact hacc
    · rw [if_neg hcm]
      exact ih acc hacc

theorem targetCounts_pos (nodes : List Node) :
    ∀ acc : List (String × Nat), (∀ p ∈ acc, 1 ≤ p.2) →
      ∀ p ∈ targetCounts nodes acc, 1 ≤ p.2 := by
  induction nodes with
  | nil => exact fun acc h => h
  | cons n rest ih =>
    intro acc hacc
    unfold targetCounts
    by_cases hcm : n.op = "call_module"
    · rw [if_pos hcm]
      rcases hg : dictGet acc n.target with _ | k
      · dsimp only
        refine ih _ fun p hp => ?_
        rcases mem_dictSet acc n.target 1 p hp with h | h
        · subst h
          exact Nat.le_refl 1
        · exact hacc p h
      · dsimp only
        refine ih _ fun p hp => ?_
        rcases mem_dictSet acc n.target (k + 1) p hp with h | h
        · subst h
          exact Nat.le_add_left 1 k
        · exact hacc p h
    · rw [if_neg hcm]
      exact ih acc hacc

theorem targetCounts_get (nodes : List Node) :
    ∀ (acc : List (String × Nat)) (t : String),
      dictGet (targetCounts nodes acc) t =
        match dictGet acc t with
        | some k => some (k + cmCount nodes t)
        | none => if cmCount nodes t = 0 then none else some (cmCount nodes t) := by
  induction nodes with
  | nil =>
    intro acc t
    rcases h : dictGet acc t with _ | k
    · simp [targetCounts, cmCount, h]
    · simp [targetCounts, cmCount, h]
  | cons n rest ih =>
    intro acc t
    unfold targetCounts
    by_cases hcm : n.op = "call_module"
    · rw [if_pos hcm]
      rcases hg : dictGet acc n.target with _ | k
      · dsimp only
        rw [ih (dictSet acc n.target 1) t]
        by_cases ht : t = n.target
        · subst ht
          rw [dictGet_dictSet_self, hg]
          dsimp only
          rw [cmCount_cons, if_pos (⟨hcm, rfl⟩ : n.op = "call_module" ∧ n.target = n.target)]
          rw [if_neg (show ¬(1 + cmCount rest n.target = 0) by omega)]
        · rw [dictGet_dictSet_ne acc n.target t 1 ht]
          have hne : ¬(n.op = "call_module" ∧ n.target = t) := fun hh => ht hh.2.symm
          rcases hat : dictGet acc t with _ | k2 <;> simp [cmCount_cons, hne]
      · dsimp only
        rw [ih (dictSet acc n.target (k + 1)) t]
        by_cases ht : t = n.target
        · subst ht
          rw [dictGet_dictSet_self, hg]
          dsimp only
          rw [cmCount_cons, if_pos (⟨hcm, rfl⟩ : n.op = "call_module" ∧ n.target = n.target)]
          rw [Option.some.injEq]
          omega
        · rw [dictGet_dictSet_ne acc n.target t (k + 1) ht]
          have hne : ¬(n.op = "call_module" ∧ n.target = t) := fun hh => ht hh.2.symm
          rcases hat : dictGet acc t with _ | k2 <;> simp [cmCount_cons, hne]
    · rw [if_neg hcm]
      rw [ih acc t]
      have hne : ¬(n.op = "call_module" ∧ n.target = t) := fun hh => hcm hh.1
      rcases hat : dictGet acc t with _ | k2 <;> simp [cmCount_cons, hne]

theorem sumPred_dictSet_new (d : List (String × Nat)) (t : String) :
    dictGet d t = none → sumPred (dictSet d t 1) = sumPred d := by
  induction d with
  | nil => intro _; rfl
  | cons p rest ih =>
    intro h
    obtain ⟨k2, v2⟩ := p
    by_cases h2 : k2 = t
    · subst h2
      simp [dictGet] at h
    · simp only [dictGet, if_neg h2] at h
      simp only [dictSet, if_neg h2]
      simp only [sumPred, List.map_cons, List.sum_cons] at ih ⊢
      rw [ih h]

theorem sumPred_dictSet_bump (d : List (String × Nat)) (t : String) (c : Nat) (hc : 1 ≤ c) :
    dictGet d t = some c → sumPred (dictSet d t (c + 1)) = sumPred d + 1 := by
  induction d with
  | nil => intro h; simp [dictGet] at h
  | cons p rest ih =>
    intro h
    obtain ⟨k2, v2⟩ := p
    by_cases h2 : k2 = t
    · subst h2
      simp [dictGet] at h
      subst h
      simp [dictSet, sumPred]
      omega
    · simp only [dictGet, if_neg h2] at h
      simp only [dictSet, if_neg h2]
      simp only [sumPred, List.map_cons, List.sum_cons] at ih ⊢
      rw [ih h]
      omega

theorem targetCounts_sumPred (nodes : List Node) :
    ∀ acc : List (String × Nat), (∀ p ∈ acc, 1 ≤ p.2) →
      sumPred (targetCounts nodes acc) = sumPred acc + (renamedPairs nodes acc).length := by
  induction nodes with
  | nil =>
    intro acc _
    simp [targetCounts, renamedPairs]
  | cons n rest ih =>
    intro acc hacc
    unfold targetCounts renamedPairs
    by_cases hcm : n.op = "call_module"
    · rw [if_pos hcm, if_pos hcm]
      rcases hg : dictGet acc n.target with _ | k
      · dsimp only
        simp only [Option.getD_none]
        have hpos : ∀ p ∈ dictSet acc n.target 1, 1 ≤ p.2 := by
          intro p hp
          rcases mem_dictSet acc n.target 1 p hp with h | h
          · subst h
            exact Nat.le_refl 1
          · exact hacc p h
        rw [ih _ hpos, sumPred_dictSet_new acc n.target hg]
      · have hk1 : 1 ≤ k := hacc (n.target, k) (dictGet_mem acc n.target k hg)
        obtain ⟨k2, rfl⟩ : ∃ k2, k = k2 + 1 := ⟨k - 1, by omega⟩
        dsimp only
        simp only [Option.getD_some]
        rw [show k2 + 2 = k2 + 1 + 1 from rfl]
        have hpos : ∀ p ∈ dictSet acc n.target (k2 + 1 + 1), 1 ≤ p.2 := by
          intro p hp
          rcases mem_dictSet acc n.target (k2 + 1 + 1) p hp with h | h
          · subst h
            exact Nat.le_add_left 1 (k2 + 1)
          · exact hacc p h
        rw [List.length_cons, ih _ hpos,
          sumPred_dictSet_bump acc n.target (k2 + 1) (Nat.le_add_left 1 k2) hg]
        omega
    · rw [if_neg hcm, if_neg hcm]
      exact ih acc hacc

theorem groupEntries_length (t : String) (m : Mod) :
    ∀ r idx fresh, (groupEntries t m idx fresh r).length = r := by
  intro r
  induction r with
  | zero => intro idx fresh; rfl
  | succ r ih =>
    intro idx fresh
    unfold groupEntries
    simp [ih]

theorem groupEntries_mem (t : String) (m : Mod) :
    ∀ r idx fresh q, q ∈ groupEntries t m idx fresh r →
      ∃ j, idx ≤ j ∧ j < idx + r ∧ q.1 = newName t j ∧ q.2.state = m.state ∧
        q.2.addr = fresh + (j - idx) := by
  intro r
  induction r with
  | zero => intro idx fresh q hq; simp [groupEntries] at hq
  | succ r ih =>
    intro idx fresh q hq
    unfold groupEntries at hq
    rcases List.mem_cons.mp hq with hq | hq
    · subst hq
      exact ⟨idx, Nat.le_refl _, by omega, rfl, rfl, by dsimp only; omega⟩
    · obtain ⟨j, hj1, hj2, hn, hs, ha⟩ := ih (idx + 1) (fresh + 1) q hq
      exact ⟨j, by omega, by omega, hn, hs, by omega⟩

theorem groupEntries_mem_name (t : String) (m : Mod) :
    ∀ r idx fresh j, idx ≤ j → j < idx + r →
      (newName t j, { addr := fresh + (j - idx), state := m.state }) ∈
        groupEntries t m idx fresh r := by
  intro r
  induction r with
  | zero => intro idx fresh j h1 h2; exact absurd h2 (by omega)
  | succ r ih =>
    intro idx fresh j h1 h2
    unfold groupEntries
    by_cases hj : j = idx
    · subst hj
      have he : j - j = 0 := by omega
      rw [he, Nat.add_zero]
      exact List.mem_cons_self _ _
    · have hmem := ih (idx + 1) (fresh + 1) j (by omega) (by omega)
      have he : fresh + (j - idx) = fresh + 1 + (j - (idx + 1)) := by omega
      rw [he]
      exact List.mem_cons_of_mem _ hmem

theorem groupEntries_addr_nodup (t : String) (m : Mod) :
    ∀ r idx fresh, ((groupEntries t m idx fresh r).map fun q => q.2.addr).Nodup := by
  intro r
  induction r with
  | zero => intro idx fresh; simp [groupEntries]
  | succ r ih =>
    intro idx fresh
    unfold groupEntries
    simp only [List.map_cons, List.nodup_cons]
    refine ⟨fun hmem => ?_, ih (idx + 1) (fresh + 1)⟩
    obtain ⟨q, hq, haddr⟩ := List.mem_map.mp hmem
    obtain ⟨j, hj1, hj2, _, _, ha⟩ := groupEntries_mem t m r (idx + 1) (fresh + 1) q hq
    omega

theorem dupLoop_length (tc : List (String × Nat)) :
    ∀ modules fresh ds, dupLoop tc modules fresh = .ok ds → ds.length = sumPred tc := by
  induction tc with
  | nil =>
    intro modules fresh ds h
    unfold dupLoop at h
    rw [Except.ok.injEq] at h
    subst h
    rfl
  | cons p rest ih =>
    intro modules fresh ds h
    obtain ⟨t, cnt⟩ := p
    unfold dupLoop at h
    by_cases hcnt : 1 < cnt
    · rw [if_pos hcnt] at h
      rcases hm : dictGet modules t with _ | m
      · rw [hm] at h
        exact absurd h (by simp)
      · rw [hm] at h
        dsimp only at h
        rcases hrec : dupLoop rest modules (fresh + (cnt - 1)) with er | ds2
        · rw [hrec] at h
          exact absurd h (by simp)
        · rw [hrec] at h
          dsimp only at h
          rw [Except.ok.injEq] at h
          subst h
          rw [List.length_append, groupEntries_length t m,
            ih modules (fresh + (cnt - 1)) ds2 hrec]
          simp only [sumPred, List.map_cons, List.sum_cons]
    · rw [if_neg hcnt] at h
      rw [ih modules fresh ds h]
      simp only [sumPred, List.map_cons, List.sum_cons]
      omega

theorem dupLoop_mem (tc : List (String × Nat)) :
    ∀ modules fresh ds, dupLoop tc modules fresh = .ok ds →
      ∀ q ∈ ds, ∃ t cnt m idx, (t, cnt) ∈ tc ∧ dictGet modules t = some m ∧
        1 ≤ idx ∧ idx < cnt ∧ q.1 = newName t idx ∧ q.2.state = m.state ∧
        fresh ≤ q.2.addr := by
  induction tc with
  | nil =>
    intro modules fresh ds h q hq
    unfold dupLoop at h
    rw [Except.ok.injEq] at h
    subst h
    simp at hq
  | cons p rest ih =>
    intro modules fresh ds h q hq
    obtain ⟨t, cnt⟩ := p
    unfold dupLoop at h
    by_cases hcnt : 1 < cnt
    · rw [if_pos hcnt] at h
      rcases hm : dictGet modules t with _ | m
      · rw [hm] at h
        exact absurd h (by simp)
      · rw [hm] at h
        dsimp only at h
        rcases hrec : dupLoop rest modules (fresh + (cnt - 1)) with er | ds2
        · rw [hrec] at h
          exact absurd h (by simp)
        · rw [hrec] at h
          dsimp only at h
          rw [Except.ok.injEq] at h
          subst h
          rcases List.mem_append.mp hq with hq | hq
          · obtain ⟨j, hj1, hj2, hn, hs, ha⟩ := groupEntries_mem t m (cnt - 1) 1 fresh q hq
            exact ⟨t, cnt, m, j, List.mem_cons_self _ _, hm, hj1, by omega, hn, hs, by omega⟩
          · obtain ⟨t2, c2, m2, idx, htc, hm2, h1, h2, hn, hs, ha⟩ :=
              ih modules (fresh + (cnt - 1)) ds2 hrec q hq
            exact ⟨t2, c2, m2, idx, List.mem_cons_of_mem _ htc, hm2, h1, h2, hn, hs, by omega⟩
    · rw [if_neg hcnt] at h
      obtain ⟨t2, c2, m2, idx, htc, hm2, h1, h2, hn, hs, ha⟩ := ih modules fresh ds h q hq
      exact ⟨t2, c2, m2, idx, List.mem_cons_of_mem _ htc, hm2, h1, h2, hn, hs, ha⟩

theorem dupLoop_addr_ge (tc : List (String × Nat)) (modules : List (String × Mod))
    (fresh : Nat) (ds : List (String × Mod)) (h : dupLoop tc modules fresh = .ok ds) :
    ∀ q ∈ ds, fresh ≤ q.2.addr := by
  intro q hq
  obtain ⟨_, _, _, _, _, _, _, _, _, _, ha⟩ := dupLoop_mem tc modules fresh ds h q hq
  exact ha

theorem dupLoop_entry (tc : List (String × Nat)) :
    ∀ modules fresh ds, dupLoop tc modules fresh = .ok ds →
      ∀ t cnt idx, (t, cnt) ∈ tc → 1 ≤ idx → idx < cnt →
        ∃ md m, (newName t idx, md) ∈ ds ∧ dictGet modules t = some m ∧
          md.state = m.state := by
  induction tc with
  | nil =>
    intro modules fresh ds h t cnt idx htc
    simp at htc
  | cons p rest ih =>
    intro modules fresh ds h t cnt idx htc h1 h2
    obtain ⟨t0, c0⟩ := p
    unfold dupLoop at h
    by_cases hcnt : 1 < c0
    · rw [if_pos hcnt] at h
      rcases hm : dictGet modules t0 with _ | m
      · rw [hm] at h
        exact absurd h (by simp)
      · rw [hm] at h
        dsimp only at h
        rcases hrec : dupLoop rest modules (fresh + (c0 - 1)) with er | ds2
        · rw [hrec] at h
          exact absurd h (by simp)
        · rw [hrec] at h
          dsimp only at h
          rw [Except.ok.injEq] at h
          subst h
          rcases List.mem_cons.mp htc with htc | htc
          · injection htc with ht hc
            subst ht
            subst hc
            have hmem := groupEntries_mem_name t m (cnt - 1) 1 fresh idx h1 (by omega)
            exact ⟨{ addr := fresh + (idx - 1), state := m.state }, m,
              List.mem_append_left _ hmem, hm, rfl⟩
          · obtain ⟨md, m2, hmem, hm2, hs⟩ :=
              ih modules (fresh + (c0 - 1)) ds2 hrec t cnt idx htc h1 h2
            exact ⟨md, m2, List.mem_append_right _ hmem, hm2, hs⟩
    · rw [if_neg hcnt] at h
      rcases List.mem_cons.mp htc with htc | htc
      · injection htc with ht hc
        subst ht
        subst hc
        exact absurd h2 (by omega)
      · exact ih modules fresh ds h t cnt idx htc h1 h2

theorem dupLoop_addr_nodup (tc : List (String × Nat)) :
    ∀ modules fresh ds, dupLoop tc modules fresh = .ok ds →
      ((ds.map fun q => q.2.addr).Nodup) := by
  induction tc with
  | nil =>
    intro modules fresh ds h
    unfold dupLoop at h
    rw [Except.ok.injEq] at h
    subst h
    simp
  | cons p rest ih =>
    intro modules fresh ds h
    obtain ⟨t, cnt⟩ := p
    unfold dupLoop at h
    by_cases hcnt : 1 < cnt
    · rw [if_pos hcnt] at h
      rcases hm : dictGet modules t with _ | m
      · rw [hm] at h
        exact absurd h (by simp)
      · rw [hm] at h
        dsimp only at h
        rcases hrec : dupLoop rest modules (fresh + (cnt - 1)) with er | ds2
        · rw [hrec] at h
          exact absurd h (by simp)
        · rw [hrec] at h
          dsimp only at h
          rw [Except.ok.injEq] at h
          subst h
          rw [List.map_append]
          refine List.Nodup.append (groupEntries_addr_nodup t m (cnt - 1) 1 fresh)
            (ih modules (fresh + (cnt - 1)) ds2 hrec) ?_
          intro a ha1 ha2
          obtain ⟨q1, hq1, he1⟩ := List.mem_map.mp ha1
          obtain ⟨q2, hq2, he2⟩ := List.mem_map.mp ha2
          obtain ⟨j, hj1, hj2, _, _, haj⟩ := groupEntries_mem t m (cnt - 1) 1 fresh q1 hq1
          have hge := dupLoop_addr_ge rest modules (fresh + (cnt - 1)) ds2 hrec q2 hq2
          omega
    · rw [if_neg hcnt] at h
      exact ih modules fresh ds h

theorem cmCountBefore_lt_cmCount (nodes : List Node) :
    ∀ i, i < nodes.length → (nodes.getD i dfltNode).op = "call_module" →
      cmCountBefore nodes (nodes.getD i dfltNode).target i <
        cmCount nodes (nodes.getD i dfltNode).target := by
  induction nodes with
  | nil => intro i hi; exact absurd hi (by simp)
  | cons n rest ih =>
    intro i hi hcm
    cases i with
    | zero =>
      simp only [List.getD_cons_zero] at hcm ⊢
      rw [cmCountBefore_zero, cmCount_cons,
        if_pos (⟨hcm, rfl⟩ : n.op = "call_module" ∧ n.target = n.target)]
      omega
    | succ i =>
      simp only [List.getD_cons_succ] at hcm ⊢
      rw [cmCountBefore_cons, cmCount_cons]
      have := ih i (by simpa using hi) hcm
      omega

/-! ### Lemmas about constant extraction -/

theorem constantLoop_sound (nodes : List Node) (model : PyObj) :
    ∀ d0 d, constantLoop nodes model d0 = .ok d →
      (∀ kv ∈ d0, getAttrs model kv.1 = .ok kv.2) →
      ∀ kv ∈ d, getAttrs model kv.1 = .ok kv.2 := by
  induction nodes with
  | nil =>
    intro d0 d h h0
    unfold constantLoop at h
    rw [Except.ok.injEq] at h
    exact h ▸ h0
  | cons n rest ih =>
    intro d0 d h h0
    unfold constantLoop at h
    by_cases hga : n.op = "get_attr"
    · rw [if_pos hga] at h
      rcases hv : getAttrs model n.target with er | v
      · rw [hv] at h
        exact absurd h (by simp)
      · rw [hv] at h
        refine ih (dictSet d0 n.target v) d h fun kv hkv => ?_
        rcases mem_dictSet d0 n.target v kv hkv with hkv | hkv
        · subst hkv
          exact hv
        · exact h0 kv hkv
    · rw [if_neg hga] at h
      exact ih d0 d h h0

theorem constantLoop_provenance (nodes : List Node) (model : PyObj) :
    ∀ d0 d, constantLoop nodes model d0 = .ok d →
      ∀ kv ∈ d, kv ∈ d0 ∨ ∃ nn ∈ nodes, nn.op = "get_attr" ∧ nn.target = kv.1 := by
  induction nodes with
  | nil =>
    intro d0 d h kv hkv
    unfold constantLoop at h
    rw [Except.ok.injEq] at h
    exact Or.inl (h ▸ hkv)
  | cons n rest ih =>
    intro d0 d h kv hkv
    unfold constantLoop at h
    by_cases hga : n.op = "get_attr"
    · rw [if_pos hga] at h
      rcases hv : getAttrs model n.target with er | v
      · rw [hv] at h
        exact absurd h (by simp)
      · rw [hv] at h
        rcases ih (dictSet d0 n.target v) d h kv hkv with hkv2 | hkv2
        · rcases mem_dictSet d0 n.target v kv hkv2 with hkv3 | hkv3
          · subst hkv3
            exact Or.inr ⟨n, List.mem_cons_self _ _, hga, rfl⟩
          · exact Or.inl hkv3
        · obtain ⟨nn, hmem, hrest⟩ := hkv2
          exact Or.inr ⟨nn, List.mem_cons_of_mem _ hmem, hrest⟩
    · rw [if_neg hga] at h
      rcases ih d0 d h kv hkv with hkv2 | hkv2
      · exact Or.inl hkv2
      · obtain ⟨nn, hmem, hrest⟩ := hkv2
        exact Or.inr ⟨nn, List.mem_cons_of_mem _ hmem, hrest⟩

theorem constantLoop_preserves_isSome (nodes : List Node) (model : PyObj) :
    ∀ d0 d t, constantLoop nodes model d0 = .ok d →
      (dictGet d0 t).isSome → (dictGet d t).isSome := by
  induction nodes with
  | nil =>
    intro d0 d t h h0
    unfold constantLoop at h
    rw [Except.ok.injEq] at h
    exact h ▸ h0
  | cons n rest ih =>
    intro d0 d t h h0
    unfold constantLoop at h
    by_cases hga : n.op = "get_attr"
    · rw [if_pos hga] at h
      rcases hv : getAttrs model n.target with er | v
      · rw [hv] at h
        exact absurd h (by simp)
      · rw [hv] at h
        exact ih (dictSet d0 n.target v) d t h (dictGet_isSome_dictSet d0 n.target t v h0)
    · rw [if_neg hga] at h
      exact ih d0 d t h h0

theorem constantLoop_lookup (nodes : List Node) (model : PyObj) :
    ∀ d0 d, constantLoop nodes model d0 = .ok d →
      ∀ n ∈ nodes, n.op = "get_attr" → (dictGet d n.target).isSome := by
  induction nodes with
  | nil => intro d0 d h n hn; exact absurd hn (by simp)
  | cons n rest ih =>
    intro d0 d h n2 hn2 hga2
    unfold constantLoop at h
    rcases List.mem_cons.mp hn2 with hn2 | hn2
    · subst hn2
      rw [if_pos hga2] at h
      rcases hv : getAttrs model n2.target with er | v
      · rw [hv] at h
        exact absurd h (by simp)
      · rw [hv] at h
        refine constantLoop_preserves_isSome rest model _ d n2.target h ?_
        rw [dictGet_dictSet_self]
        rfl
    · by_cases hga : n.op = "get_attr"
      · rw [if_pos hga] at h
        rcases hv : getAttrs model n.target with er | v
        · rw [hv] at h
          exact absurd h (by simp)
        · rw [hv] at h
          exact ih (dictSet d0 n.target v) d h n2 hn2 hga2
      · rw [if_neg hga] at h
        exact ih d0 d h n2 hn2 hga2

theorem constantLoop_resolves (nodes : List Node) (model : PyObj) :
    ∀ d0 d, constantLoop nodes model d0 = .ok d →
      ∀ n ∈ nodes, n.op = "get_attr" → ∃ v, getAttrs model n.target = .ok v := by
  induction nodes with
  | nil => intro d0 d h n hn; exact absurd hn (by simp)
  | cons n rest ih =>
    intro d0 d h n2 hn2 hga2
    unfold constantLoop at h
    rcases List.mem_cons.mp hn2 with hn2 | hn2
    · subst hn2
      rw [if_pos hga2] at h
      rcases hv : getAttrs model n2.target with er | v
      · rw [hv] at h
        exact absurd h (by simp)
      · exact ⟨v, rfl⟩
    · by_cases hga : n.op = "get_attr"
      · rw [if_pos hga] at h
        rcases hv : getAttrs model n.target with er | v
        · rw [hv] at h
          exact absurd h (by simp)
        · rw [hv] at h
          exact ih (dictSet d0 n.target v) d h n2 hn2 hga2
      · rw [if_neg hga] at h
        exact ih d0 d h n2 hn2 hga2

/-- Claim C2: the claim says the chip-profile table is never mutated by
`get_qconfig_by_platform`, in particular when observer extra args are given
without a scheme override.  The code does the opposite: with
`w_observer_extra_args` supplied and no `w_qscheme` override, the kwargs
merge of line 217 runs on the table's own default scheme object, so after a
successful resolution the process-wide `ParamsTable` entry for the chip has
been changed in place.  This theorem evaluates that failing input. -/
theorem C2_table_mutated_by_extra_args :
    (get_qconfig_by_platform c2qd c2e ParamsTable).1 ≠ ParamsTable ∧
    dictGet (get_qconfig_by_platform c2qd c2e ParamsTable).1 "BM1688" =
      some { bm1688Params with
             w_qscheme := { bm1688Params.w_qscheme with kwargs := [("momentum", 1)] } } ∧
    isOkE (get_qconfig_by_platform c2qd c2e ParamsTable).2 = true := by
  refine ⟨by decide, rfl, rfl⟩

/-- Claim C5: for an unknown chip the claim (and the spec's intent) is a
synchronous descriptive `UnsupportedChipError`; the code instead only logs
"The chip is currently not supported" and falls through, so the call dies
with `UnboundLocalError` on the never-assigned local `chip_params` — an
unrelated name-resolution error, not a descriptive config error (the spec
itself records this as a defect, §7/§9).  It does fail (never silently
defaults), but with the wrong error.  This theorem evaluates the failing
input. -/
theorem C5_unknown_chip_dies_with_unbound_local :
    (get_qconfig_by_platform c5qd emptyExtra ParamsTable).2 =
      .error (.nameError "chip_params") ∧
    (get_qconfig_by_platform c5qd emptyExtra ParamsTable).1 = ParamsTable ∧
    Err.nameError "chip_params" ≠ Err.keyError "NOTACHIP" := by
  refine ⟨rfl, rfl, by decide⟩

/-- Claim C4, counterexample: with `quantmode="weight_only"` and
`strategy="CNN"` the resolution does NOT always raise the
invalid-combination error "regardless of the chip and of any other override
fields": an unknown chip dies first with `UnboundLocalError`, and an unknown
observer name dies first with the registry assertion, both before the
combination check at line 245 is reached. -/
theorem C4_counterexample :
    (get_qconfig_by_platform c4qdA emptyExtra ParamsTable).2 =
      .error (.nameError "chip_params") ∧
    (get_qconfig_by_platform c4qdB c4eB ParamsTable).2 =
      .error (.assertionError "Do not support observer name: Bogus") ∧
    Err.nameError "chip_params" ≠ Err.assertionError "unsupport this combination" ∧
    Err.assertionError "Do not support observer name: Bogus" ≠
      Err.assertionError "unsupport this combination" := by
  refine ⟨rfl, rfl, by decide, by decide⟩

theorem resolveForChip_combo (qd : QuantDict) (e : ExtraQParams) (cp : ChipparamsOut)
    (w0 a0 : QuantizeScheme) (fqKeys : List String)
    (hqm : qd.quantmode = "weight_only") (hst : qd.strategy = "CNN")
    (hcp : chipparams qd.chip e fqKeys ParamsTable = .ok cp)
    (hw : resolveScheme qd.chip e.w_qscheme cp.chip_params.w_qscheme = .ok w0)
    (ha : resolveScheme qd.chip e.a_qscheme cp.chip_params.a_qscheme = .ok a0) :
    (resolveForChip qd e ParamsTable fqKeys).2 =
      .error (.assertionError "unsupport this combination") := by
  unfold resolveForChip
  rw [hcp]
  dsimp only
  rw [hw]
  dsimp only
  rw [ha]
  dsimp only
  unfold buildConfig
  rw [if_pos ⟨hqm, hst⟩]

/-- Claim C4 (amended): for every configuration with
`quantmode="weight_only"` and `strategy="CNN"` whose chip is one of the
supported chips and whose observer/fake-quantize-name and scheme-bit-width
overrides pass their earlier validation, resolution raises the
invalid-combination assertion (`unsupport this combination`), regardless of
the `object_type`/`module_name`/bulk override fields. -/
theorem C4_weight_only_cnn_rejected (chip strategy quantmode : String) (e : ExtraQParams)
    (cp : ChipparamsOut) (w0 a0 : QuantizeScheme)
    (hqm : quantmode = "weight_only") (hst : strategy = "CNN")
    (hchip : chip = "BM1688" ∨ chip = "BM1684X" ∨ chip = "CV183X" ∨ chip = "BM1690" ∨
      chip = "Academic")
    (hcp : chipparams chip e
      (if chip = "Academic" then FakeQuantizeDict else FakeQuantizeDict_Chip) ParamsTable =
      .ok cp)
    (hw : resolveScheme chip e.w_qscheme cp.chip_params.w_qscheme = .ok w0)
    (ha : resolveScheme chip e.a_qscheme cp.chip_params.a_qscheme = .ok a0) :
    (get_qconfig_by_platform { chip := chip, strategy := strategy, quantmode := quantmode }
      e ParamsTable).2 = .error (.assertionError "unsupport this combination") := by
  subst hqm
  subst hst
  rcases hchip with h1 | h1 | h1 | h1 | h1 <;> subst h1
  · rw [if_neg (by decide)] at hcp
    unfold get_qconfig_by_platform
    rw [if_pos rfl]
    exact resolveForChip_combo _ e cp w0 a0 _ rfl rfl hcp hw ha
  · rw [if_neg (by decide)] at hcp
    unfold get_qconfig_by_platform
    rw [if_neg (by decide), if_pos rfl]
    exact resolveForChip_combo _ e cp w0 a0 _ rfl rfl hcp hw ha
  · rw [if_neg (by decide)] at hcp
    unfold get_qconfig_by_platform
    rw [if_neg (by decide), if_neg (by decide), if_pos rfl]
    exact resolveForChip_combo _ e cp w0 a0 _ rfl rfl hcp hw ha
  · rw [if_neg (by decide)] at hcp
    unfold get_qconfig_by_platform
    rw [if_neg (by decide), if_neg (by decide), if_neg (by decide), if_pos rfl]
    exact resolveForChip_combo _ e cp w0 a0 _ rfl rfl hcp hw ha
  · rw [if_pos rfl] at hcp
    unfold get_qconfig_by_platform
    rw [if_neg (by decide), if_neg (by decide), if_neg (by decide), if_neg (by decide),
      if_pos rfl]
    exact resolveForChip_combo _ e cp w0 a0 _ rfl rfl hcp hw ha

/-- Witness for C4: the amended theorem applied at BM1688 with empty
overrides. -/
theorem C4_witness :
    (get_qconfig_by_platform { chip := "BM1688", strategy := "CNN", quantmode := "weight_only" }
      emptyExtra ParamsTable).2 = .error (.assertionError "unsupport this combination") :=
  C4_weight_only_cnn_rejected "BM1688" "CNN" "weight_only" emptyExtra
    { chip_params := bm1688Params, w_observer := none, a_observer := none
      w_fakequantize := none, a_fakequantize := none }
    bm1688Params.w_qscheme bm1688Params.a_qscheme rfl rfl (Or.inl rfl) rfl rfl rfl

/-- Claim C3, counterexample: the claim says every supported chip other than
BM1688 accepts only bit width 8 and fails otherwise; but CV183X (and
Academic) have no bit-width check at all, so an explicit weight scheme with
bit 5 resolves successfully on CV183X. -/
theorem C3_counterexample :
    isOkE (get_qconfig_by_platform
      { chip := "CV183X", strategy := "CNN", quantmode := "weight_activation" }
      c3e ParamsTable).2 = true ∧
    (5 : Nat) ≠ 8 := by
  refine ⟨rfl, by decide⟩

/-- Claim C3 (amended): with no explicit scheme the chip default is used;
with an explicit scheme, the bit width is validated only for BM1688 (allowed
set {4, 8}) and for BM1684X / BM1690 (allowed set {8}), failing with the
`unsupported data type` assertion on violation, while CV183X and Academic
accept any bit width. -/
theorem C3_bit_width_validation (chip : String) (d : SchemeDict) (dflt : QuantizeScheme) :
    (resolveScheme chip none dflt = .ok dflt) ∧
    (chip = "BM1688" →
      (d.bit = 4 ∨ d.bit = 8 → resolveScheme chip (some d) dflt = .ok d.toScheme) ∧
      (¬(d.bit = 4 ∨ d.bit = 8) → resolveScheme chip (some d) dflt =
        .error (.assertionError "unsupported data type"))) ∧
    ((chip = "BM1684X" ∨ chip = "BM1690") →
      (d.bit = 8 → resolveScheme chip (some d) dflt = .ok d.toScheme) ∧
      (d.bit ≠ 8 → resolveScheme chip (some d) dflt =
        .error (.assertionError "unsupported data type"))) ∧
    ((chip = "CV183X" ∨ chip = "Academic") →
      resolveScheme chip (some d) dflt = .ok d.toScheme) := by
  refine ⟨rfl, ?_, ?_, ?_⟩
  · intro h1
    subst h1
    constructor
    · intro hb
      unfold resolveScheme
      dsimp only
      rw [if_neg (fun hcontra => hcontra.2 hb),
        if_neg (fun hcontra => by rcases hcontra.1 with h | h <;> exact absurd h (by decide))]
    · intro hnb
      unfold resolveScheme
      dsimp only
      rw [if_pos ⟨rfl, hnb⟩]
  · intro h1
    have hne88 : ¬chip = "BM1688" := by
      rcases h1 with h | h <;> subst h <;> decide
    constructor
    · intro hb
      unfold resolveScheme
      dsimp only
      rw [if_neg (fun hcontra => hne88 hcontra.1), if_neg (fun hcontra => hcontra.2 hb)]
    · intro hnb
      unfold resolveScheme
      dsimp only
      rw [if_neg (fun hcontra => hne88 hcontra.1), if_pos ⟨h1, hnb⟩]
  · intro h1
    have hne88 : ¬chip = "BM1688" := by
      rcases h1 with h | h <;> subst h <;> decide
    have hne84 : ¬(chip = "BM1684X" ∨ chip = "BM1690") := by
      rcases h1 with h | h <;> subst h <;> rintro (hh | hh) <;> exact absurd hh (by decide)
    unfold resolveScheme
    dsimp only
    rw [if_neg (fun hcontra => hne88 hcontra.1), if_neg (fun hcontra => hne84 hcontra.1)]

/-- Witness for C3: bit 4 is accepted on BM1688, bit 5 is rejected on
BM1690, bit 5 is accepted on CV183X, all via the amended theorem. -/
theorem C3_witness :
    resolveScheme "BM1688"
      (some { bit := 4, symmetry := true, per_channel := true, pot_scale := false
              symmetric_range := none }) bm1688Params.w_qscheme =
      .ok ({ bit := 4, symmetry := true, per_channel := true, pot_scale := false
             symmetric_range := none } : SchemeDict).toScheme ∧
    resolveScheme "BM1690"
      (some { bit := 5, symmetry := true, per_channel := true, pot_scale := false
              symmetric_range := none }) bm1690Params.w_qscheme =
      .error (.assertionError "unsupported data type") ∧
    resolveScheme "CV183X"
      (some { bit := 5, symmetry := true, per_channel := true, pot_scale := false
              symmetric_range := none }) cv183xParams.w_qscheme =
      .ok ({ bit := 5, symmetry := true, per_channel := true, pot_scale := false
             symmetric_range := none } : SchemeDict).toScheme :=
  ⟨((C3_bit_width_validation "BM1688"
      { bit := 4, symmetry := true, per_channel := true, pot_scale := false
        symmetric_range := none } bm1688Params.w_qscheme).2.1 rfl).1 (Or.inl rfl),
   ((C3_bit_width_validation "BM1690"
      { bit := 5, symmetry := true, per_channel := true, pot_scale := false
        symmetric_range := none } bm1690Params.w_qscheme).2.2.1 (Or.inr rfl)).2 (by decide),
   (C3_bit_width_validation "CV183X"
      { bit := 5, symmetry := true, per_channel := true, pot_scale := false
        symmetric_range := none } cv183xParams.w_qscheme).2.2.2 (Or.inl rfl)⟩

theorem chipparams_empty (chip : String) (fqKeys : List String) (p : ChipParams)
    (hp : dictGet ParamsTable chip = some p) :
    chipparams chip emptyExtra fqKeys ParamsTable =
      .ok { chip_params := p, w_observer := none, a_observer := none
            w_fakequantize := none, a_fakequantize := none } := by
  unfold chipparams checkRegistry
  dsimp only [emptyExtra]
  rw [hp]
  rfl

theorem resolveForChip_empty (chip strategy quantmode : String) (p : ChipParams)
    (fqKeys : List String) (hp : dictGet ParamsTable chip = some p)
    (hvalid : ¬(quantmode = "weight_only" ∧ strategy = "CNN")) :
    (resolveForChip { chip := chip, strategy := strategy, quantmode := quantmode }
      emptyExtra ParamsTable fqKeys).2 =
      .ok { default := { activation := .fq { fakequantize := p.default_act_quantize
                                             observer := p.default_act_observer
                                             fakeq_params := [], scheme := p.a_qscheme }
                         weight := .fq { fakequantize := p.default_weight_quantize
                                         observer := p.default_weight_observer
                                         fakeq_params := [], scheme := p.w_qscheme } }
            object_type := [], module_name := [] } := by
  unfold resolveForChip
  dsimp only
  rw [chipparams_empty chip fqKeys p hp]
  dsimp only
  rw [show resolveScheme chip emptyExtra.w_qscheme p.w_qscheme = .ok p.w_qscheme from rfl]
  dsimp only
  rw [show resolveScheme chip emptyExtra.a_qscheme p.a_qscheme = .ok p.a_qscheme from rfl]
  dsimp only
  unfold buildConfig
  rw [if_neg hvalid]
  rfl

/-- Claim C9: for every supported chip, resolution with empty overrides (and
a valid quantmode/strategy combination) yields a default entry pairing
exactly the chip profile's default weight/activation schemes with its
default fake-quantize algorithms and observers, and no `object_type` or
`module_name` override entries. -/
theorem C9_empty_overrides_default (chip strategy quantmode : String) (p : ChipParams)
    (hp : dictGet ParamsTable chip = some p)
    (hvalid : ¬(quantmode = "weight_only" ∧ strategy = "CNN")) :
    (get_qconfig_by_platform { chip := chip, strategy := strategy, quantmode := quantmode }
      emptyExtra ParamsTable).2 =
      .ok { default := { activation := .fq { fakequantize := p.default_act_quantize
                                             observer := p.default_act_observer
                                             fakeq_params := [], scheme := p.a_qscheme }
                         weight := .fq { fakequantize := p.default_weight_quantize
                                         observer := p.default_weight_observer
                                         fakeq_params := [], scheme := p.w_qscheme } }
            object_type := [], module_name := [] } := by
  have h5 : chip = "BM1688" ∨ chip = "BM1684X" ∨ chip = "CV183X" ∨ chip = "BM1690" ∨
      chip = "Academic" := by
    by_contra hcon
    push_neg at hcon
    obtain ⟨h1, h2, h3, h4, h5x⟩ := hcon
    unfold ParamsTable dictGet at hp
    rw [if_neg (fun hh => h1 hh.symm)] at hp
    unfold dictGet at hp
    rw [if_neg (fun hh => h2 hh.symm)] at hp
    unfold dictGet at hp
    rw [if_neg (fun hh => h3 hh.symm)] at hp
    unfold dictGet at hp
    rw [if_neg (fun hh => h4 hh.symm)] at hp
    unfold dictGet at hp
    rw [if_neg (fun hh => h5x hh.symm)] at hp
    exact absurd hp (by simp [dictGet])
  rcases h5 with h1 | h1 | h1 | h1 | h1 <;> subst h1
  · unfold get_qconfig_by_platform
    dsimp only
    rw [if_pos rfl]
    exact resolveForChip_empty _ _ _ p _ hp hvalid
  · unfold get_qconfig_by_platform
    dsimp only
    rw [if_neg (by decide), if_pos rfl]
    exact resolveForChip_empty _ _ _ p _ hp hvalid
  · unfold get_qconfig_by_platform
    dsimp only
    rw [if_neg (by decide), if_neg (by decide), if_pos rfl]
    exact resolveForChip_empty _ _ _ p _ hp hvalid
  · unfold get_qconfig_by_platform
    dsimp only
    rw [if_neg (by decide), if_neg (by decide), if_neg (by decide), if_pos rfl]
    exact resolveForChip_empty _ _ _ p _ hp hvalid
  · unfold get_qconfig_by_platform
    dsimp only
    rw [if_neg (by decide), if_neg (by decide), if_neg (by decide), if_neg (by decide),
      if_pos rfl]
    exact resolveForChip_empty _ _ _ p _ hp hvalid

/-- Witness for C9: the theorem applied at BM1688. -/
theorem C9_witness :
    (get_qconfig_by_platform
      { chip := "BM1688", strategy := "CNN", quantmode := "weight_activation" }
      emptyExtra ParamsTable).2 =
      .ok { default := { activation := .fq { fakequantize := bm1688Params.default_act_quantize
                                             observer := bm1688Params.default_act_observer
                                             fakeq_params := []
                                             scheme := bm1688Params.a_qscheme }
                         weight := .fq { fakequantize := bm1688Params.default_weight_quantize
                                         observer := bm1688Params.default_weight_observer
                                         fakeq_params := []
                                         scheme := bm1688Params.w_qscheme } }
            object_type := [], module_name := [] } :=
  C9_empty_overrides_default "BM1688" "CNN" "weight_activation" bm1688Params rfl (by decide)

/-- Claim C1: the bulk `int4_op`/`int8_op`/`f16_op` passes run after the
explicit `module_name` overrides, so for any module name present in both,
the entry that remains in the resolved per-module-name mapping is the bulk
one — a full both-sides entry with matching weight/activation bit width (4,
8 or 16 respectively; the f16 entry uses `Fp16FakeQuantize` on both sides).
Within the bulk passes the order is int4, then int8, then f16, later passes
overwriting earlier ones on collision. -/
theorem C1_bulk_overrides_win (qd : QuantDict) (e : ExtraQParams) (cfg : ResolvedConfig)
    (name : String)
    (h : (get_qconfig_by_platform qd e ParamsTable).2 = .ok cfg)
    (_hmn : name ∈ e.module_name.map Prod.fst) :
    (name ∈ e.f16_op → dictGet cfg.module_name name = some f16Qconfig) ∧
    (name ∉ e.f16_op → name ∈ e.int8_op → dictGet cfg.module_name name = some int8Qconfig) ∧
    (name ∉ e.f16_op → name ∉ e.int8_op → name ∈ e.int4_op →
      dictGet cfg.module_name name = some int4Qconfig) ∧
    bothSidesBit int4Qconfig 4 ∧ bothSidesBit int8Qconfig 8 ∧ bothSidesBit f16Qconfig 16 ∧
    sidesAlgo f16Qconfig "Fp16FakeQuantize" := by
  obtain ⟨cp, w1, a1, hb⟩ := get_qconfig_ok qd e ParamsTable cfg h
  obtain ⟨ot, mn, hot, hmn2, hcfgot, hcfgmn⟩ := buildConfig_ok qd e cp w1 a1 cfg hb
  rw [hcfgmn]
  refine ⟨?_, ?_, ?_, ⟨_, _, rfl, rfl, rfl, rfl⟩, ⟨_, _, rfl, rfl, rfl, rfl⟩,
    ⟨_, _, rfl, rfl, rfl, rfl⟩, ⟨_, _, rfl, rfl, rfl, rfl⟩⟩
  · intro hf
    rw [bulkFold_lookup, if_pos hf]
  · intro hnf h8
    rw [bulkFold_lookup, if_neg hnf, if_pos h8]
  · intro hnf hn8 h4
    rw [bulkFold_lookup, if_neg hnf, if_neg hn8, if_pos h4]

/-- Witness for C1: "layer1" carries both a `module_name` override and an
`int8_op` entry; the resolved entry is the int8 bulk entry. -/
theorem C1_witness : dictGet c1cfg.module_name "layer1" = some int8Qconfig :=
  (C1_bulk_overrides_win c1qd c1e c1cfg "layer1" (by rfl) (by decide)).2.1
    (by decide) (by decide)

/-- Claim C8: each `object_type` / `module_name` override spec is dispatched
on its `mode` field. `"activation"` (with names that resolve in the
registries) installs a single-sided activation entry with the fixed scheme —
symmetric, not per-channel, not power-of-two, no symmetric range; `"weight"`
installs a single-sided weight entry with the same fixed scheme plus
`symmetric_range=True`; any other mode fails the resolution with the
invalid-mode `ValueError`. -/
theorem C8_override_mode_dispatch (name : String) (spec : OverrideSpec)
    (rest : List (String × OverrideSpec)) (acc : List (String × QConfig)) (fq ob : String) :
    (spec.mode = some "activation" → spec.afakequantize = some fq →
      spec.aobserver = some ob → fq ∈ FakeQuantizeDict → ob ∈ ObserverDict →
      applyNamedOverrides ((name, spec) :: rest) acc =
        applyNamedOverrides rest (dictSet acc name
          { activation := .fq { fakequantize := fq, observer := ob, fakeq_params := []
                                scheme := { symmetry := true, per_channel := false
                                            pot_scale := false, bit := spec.bit
                                            symmetric_range := false, kwargs := [] } }
            weight := .none })) ∧
    (spec.mode = some "weight" → spec.wfakequantize = some fq →
      spec.wobserver = some ob → fq ∈ FakeQuantizeDict → ob ∈ ObserverDict →
      applyNamedOverrides ((name, spec) :: rest) acc =
        applyNamedOverrides rest (dictSet acc name
          { activation := .identity
            weight := .fq { fakequantize := fq, observer := ob, fakeq_params := []
                            scheme := { symmetry := true, per_channel := false
                                        pot_scale := false, bit := spec.bit
                                        symmetric_range := true, kwargs := [] } } })) ∧
    (spec.mode ≠ some "activation" → spec.mode ≠ some "weight" →
      applyNamedOverrides ((name, spec) :: rest) acc =
        .error (.valueError "invalid mode: mode should be activation or weight")) := by
  refine ⟨?_, ?_, ?_⟩
  · intro hm haf hao hfq hob
    have hps : processOverrideSpec spec =
        .ok { activation := .fq { fakequantize := fq, observer := ob, fakeq_params := []
                                  scheme := { symmetry := true, per_channel := false
                                              pot_scale := false, bit := spec.bit
                                              symmetric_range := false, kwargs := [] } }
              weight := .none } := by
      unfold processOverrideSpec
      rw [if_pos hm]
      unfold createQConfigForSophgo_activation
      rw [hao, haf]
      unfold dictIndexOpt dictIndex
      dsimp only
      rw [if_pos hob]
      dsimp only
      rw [if_pos hfq]
    conv_lhs => rw [applyNamedOverrides]
    rw [hps]
  · intro hm hwf hwo hfq hob
    have hma : spec.mode ≠ some "activation" := by
      rw [hm]
      decide
    have hps : processOverrideSpec spec =
        .ok { activation := .identity
              weight := .fq { fakequantize := fq, observer := ob, fakeq_params := []
                              scheme := { symmetry := true, per_channel := false
                                          pot_scale := false, bit := spec.bit
                                          symmetric_range := true, kwargs := [] } } } := by
      unfold processOverrideSpec
      rw [if_neg hma, if_pos hm]
      unfold createQConfigForSophgo_weight
      rw [hwo, hwf]
      unfold dictIndexOpt dictIndex
      dsimp only
      rw [if_pos hob]
      dsimp only
      rw [if_pos hfq]
    conv_lhs => rw [applyNamedOverrides]
    rw [hps]
  · intro hma hmw
    have hps : processOverrideSpec spec =
        .error (.valueError "invalid mode: mode should be activation or weight") := by
      unfold processOverrideSpec
      rw [if_neg hma, if_neg hmw]
    conv_lhs => rw [applyNamedOverrides]
    rw [hps]

/-- Witness for C8: a weight-mode spec installs the single-sided weight
entry. -/
theorem C8_witness :
    applyNamedOverrides [("conv1", c8spec)] [] =
      .ok [("conv1",
        { activation := .identity
          weight := .fq { fakequantize := "FixedFakeQuantize", observer := "MinMaxObserver"
                          fakeq_params := []
                          scheme := { symmetry := true, per_channel := false
                                      pot_scale := false, bit := some 8
                                      symmetric_range := true, kwargs := [] } } })] := by
  rw [(C8_override_mode_dispatch "conv1" c8spec [] [] "FixedFakeQuantize"
    "MinMaxObserver").2.1 rfl rfl rfl (by decide) (by decide)]
  rfl

/-- Claim C10: every entry produced by the object_type/module_name paths is
single-sided: an activation-mode entry has weight `None` (only the
activation side set), and a weight-mode entry has its activation side set to
`torch.nn.Identity` (pass-through, so the global activation config applies);
neither constructor can return an entry with fake-quantize on both sides. -/
theorem C10_single_sided (bit : Option Nat) (afq aob wfq wob : Option String)
    (qc qc2 : QConfig) :
    (createQConfigForSophgo_activation bit afq aob = .ok qc →
      qc.weight = QCSide.none ∧ ∃ c, qc.activation = QCSide.fq c) ∧
    (createQConfigForSophgo_weight bit wfq wob = .ok qc2 →
      qc2.activation = QCSide.identity ∧ ∃ c, qc2.weight = QCSide.fq c) := by
  constructor
  · intro h
    unfold createQConfigForSophgo_activation at h
    rcases h1 : dictIndexOpt ObserverDict aob with er | aobv <;> rw [h1] at h
    · exact absurd h (by simp)
    · dsimp only at h
      rcases h2 : dictIndexOpt FakeQuantizeDict afq with er | afqv <;> rw [h2] at h
      · exact absurd h (by simp)
      · dsimp only at h
        rw [Except.ok.injEq] at h
        subst h
        exact ⟨rfl, _, rfl⟩
  · intro h
    unfold createQConfigForSophgo_weight at h
    rcases h1 : dictIndexOpt ObserverDict wob with er | wobv <;> rw [h1] at h
    · exact absurd h (by simp)
    · dsimp only at h
      rcases h2 : dictIndexOpt FakeQuantizeDict wfq with er | wfqv <;> rw [h2] at h
      · exact absurd h (by simp)
      · dsimp only at h
        rw [Except.ok.injEq] at h
        subst h
        exact ⟨rfl, _, rfl⟩

/-- Witness for C10: the single-sidedness theorem applied at concrete
4-bit specs. -/
theorem C10_witness :
    c10act.weight = QCSide.none ∧ c10wgt.activation = QCSide.identity :=
  ⟨((C10_single_sided (some 4) (some "LearnableFakeQuantize") (some "MinMaxObserver")
      (some "FixedFakeQuantize") (some "MinMaxObserver") c10act c10wgt).1 rfl).1,
   ((C10_single_sided (some 4) (some "LearnableFakeQuantize") (some "MinMaxObserver")
      (some "FixedFakeQuantize") (some "MinMaxObserver") c10act c10wgt).2 rfl).1⟩

/-- Claim C7: on success, `prepare_constant_dict` returns a table whose keys
are exactly the targets of the `get_attr` nodes, each mapped to the value
obtained by resolving the dotted path segment-by-segment against the model;
and if any `get_attr` node's path has a missing segment, the call fails
(with the `AttributeError` raised by the lookup). -/
theorem C7_constant_extraction (nodes : List Node) (model : PyObj) :
    (∀ d, prepare_constant_dict nodes model = .ok d →
      (∀ n ∈ nodes, n.op = "get_attr" →
        ∃ v, getAttrs model n.target = .ok v ∧ dictGet d n.target = some v) ∧
      (∀ kv ∈ d, (∃ n ∈ nodes, n.op = "get_attr" ∧ n.target = kv.1) ∧
        getAttrs model kv.1 = .ok kv.2)) ∧
    ((∃ n ∈ nodes, n.op = "get_attr" ∧ isOkE (getAttrs model n.target) = false) →
      isOkE (prepare_constant_dict nodes model) = false) := by
  constructor
  · intro d hd
    constructor
    · intro n hn hga
      have hsome := constantLoop_lookup nodes model [] d hd n hn hga
      obtain ⟨v, hv⟩ := Option.isSome_iff_exists.mp hsome
      have hmem := dictGet_mem d n.target v hv
      have hres := constantLoop_sound nodes model [] d hd (by simp) (n.target, v) hmem
      exact ⟨v, hres, hv⟩
    · intro kv hkv
      refine ⟨?_, constantLoop_sound nodes model [] d hd (by simp) kv hkv⟩
      rcases constantLoop_provenance nodes model [] d hd kv hkv with hin | h2
      · exact absurd hin (by simp)
      · exact h2
  · rintro ⟨n, hn, hga, hfail⟩
    rcases hres : prepare_constant_dict nodes model with er | d
    · rfl
    · exfalso
      obtain ⟨v, hv⟩ := constantLoop_resolves nodes model [] d hres n hn hga
      rw [hv] at hfail
      exact absurd hfail (by simp [isOkE])

/-- Witness for C7: the spec's example path resolves and is recorded under
its exact key. -/
theorem C7_witness :
    getAttrs c7model "backbone.norm.running_stat" = .ok (PyObj.leaf 7) ∧
    dictGet c7dict "backbone.norm.running_stat" = some (PyObj.leaf 7) := by
  have H := (C7_constant_extraction c7nodes c7model).1 c7dict rfl
  obtain ⟨v, hres, hget⟩ :=
    H.1 { op := "get_attr", target := "backbone.norm.running_stat" }
      (List.mem_cons_self _ _) rfl
  have hsome : some v = some (PyObj.leaf 7) := by
    rw [← hget]
    rfl
  have hv := Option.some.inj hsome
  subst hv
  exact ⟨hres, hget⟩

/-- Claim C6, counterexample: in the input graph the target `"a_dup1"` is
referenced by two `call_module` nodes (more than one), yet after the pass
two nodes still carry `"a_dup1"` — the second occurrence of `"a"` is
retargeted to the not-at-all-fresh name `"a_dup1"` — refuting both "exactly
one node still carries the original target" and the freshness of the
derived names. -/
theorem C6_counterexample :
    (c6badNodes.filter fun n => n.op = "call_module" ∧ n.target = "a_dup1").length = 2 ∧
    duplicate_reused_nodes c6badNodes c6badModules 2 =
      .ok (c6badAfter, [("a_dup1_dup1", { addr := 2, state := [] }),
                        ("a_dup1", { addr := 3, state := [] })]) ∧
    (c6badAfter.filter fun n => n.op = "call_module" ∧ n.target = "a_dup1").length = 2 := by
  refine ⟨by decide, rfl, by decide⟩

/-- Claim C6 (amended): after the pass, the node list has the same length;
node `i` is unchanged unless it is a `call_module` node with at least one
earlier occurrence of the same target, in which case it is retargeted to
`target + "_dup" + str(k)` where `k` is its occurrence index; in particular
the first occurrence of every target, and every node of a once-referenced
target, keeps its target.  The derived name always differs from the
original target, and names of distinct occurrence indices of the same
target are distinct (though a derived name may collide with an unrelated
pre-existing target).  The dup-module table has exactly one entry per
retargeted node: its length is the number of retargeted nodes, every
retargeted node contributes an entry keyed by its derived name holding a
copy of the original module's state, and conversely every entry is such a
copy for some reused target and occurrence index below that target's
reference count.  All entries sit at fresh addresses — distinct from every
original module's address and pairwise distinct — so the clones are
structurally independent of the originals and of each other. -/
theorem C6_dedup_characterization (nodes : List Node) (modules : List (String × Mod))
    (fresh : Nat) (ns : List Node) (ds : List (String × Mod))
    (hfresh : ∀ p ∈ modules, p.2.addr < fresh)
    (h : duplicate_reused_nodes nodes modules fresh = .ok (ns, ds)) :
    ns.length = nodes.length ∧
    (∀ i, i < nodes.length → ns.getD i dfltNode = expectedNode nodes [] i) ∧
    (∀ i, i < nodes.length → cmCountBefore nodes (nodes.getD i dfltNode).target i = 0 →
      ns.getD i dfltNode = nodes.getD i dfltNode) ∧
    (∀ t k, newName t k ≠ t) ∧
    (∀ t k1 k2, k1 ≠ k2 → newName t k1 ≠ newName t k2) ∧
    ds.length = (renamedPairs nodes []).length ∧
    (∀ i, i < nodes.length → (nodes.getD i dfltNode).op = "call_module" →
      cmCountBefore nodes (nodes.getD i dfltNode).target i ≠ 0 →
      (newName (nodes.getD i dfltNode).target
          (cmCountBefore nodes (nodes.getD i dfltNode).target i),
        (nodes.getD i dfltNode).target) ∈ renamedPairs nodes [] ∧
      ∃ md m, (newName (nodes.getD i dfltNode).target
            (cmCountBefore nodes (nodes.getD i dfltNode).target i), md) ∈ ds ∧
        dictGet modules (nodes.getD i dfltNode).target = some m ∧ md.state = m.state) ∧
    (∀ q ∈ ds, ∃ t idx m, 1 ≤ idx ∧ idx < cmCount nodes t ∧ q.1 = newName t idx ∧
      dictGet modules t = some m ∧ q.2.state = m.state) ∧
    (∀ q ∈ ds, ∀ p ∈ modules, q.2.addr ≠ p.2.addr) ∧
    ((ds.map fun q => q.2.addr).Nodup) := by
  unfold duplicate_reused_nodes at h
  rcases hdl : dupLoop (targetCounts nodes []) modules fresh with er | ds0
  · rw [hdl] at h
    exact absurd h (by simp)
  · rw [hdl] at h
    dsimp only at h
    rw [Except.ok.injEq, Prod.mk.injEq] at h
    obtain ⟨hns, hds⟩ := h
    subst hns
    subst hds
    obtain ⟨hlen, hlaw⟩ := renameNodes_spec nodes []
    refine ⟨hlen, hlaw, ?_, newName_ne,
      fun t k1 k2 hne heq => hne (newName_inj_idx t k1 k2 heq), ?_, ?_, ?_, ?_, ?_⟩
    · intro i hi h0
      rw [hlaw i hi]
      unfold expectedNode kIndex
      rw [dictGet_nil, h0]
      simp
    · rw [dupLoop_length (targetCounts nodes []) modules fresh ds0 hdl,
        targetCounts_sumPred nodes [] (by simp)]
      simp [sumPred]
    · intro i hi hcm hk
      have hkI : kIndex nodes [] i ≠ 0 := by
        unfold kIndex
        rw [dictGet_nil]
        simpa using hk
      have hmem := renamedPairs_mem nodes [] i hi hcm hkI
      unfold kIndex at hmem
      rw [dictGet_nil] at hmem
      simp only [Option.getD_none, Nat.zero_add] at hmem
      refine ⟨hmem, ?_⟩
      have hlt := cmCountBefore_lt_cmCount nodes i hi hcm
      have hcnt_ne : cmCount nodes (nodes.getD i dfltNode).target ≠ 0 := by omega
      have hget : dictGet (targetCounts nodes []) (nodes.getD i dfltNode).target =
          some (cmCount nodes (nodes.getD i dfltNode).target) := by
        rw [targetCounts_get nodes [] (nodes.getD i dfltNode).target, dictGet_nil]
        dsimp only
        rw [if_neg hcnt_ne]
      exact dupLoop_entry (targetCounts nodes []) modules fresh ds0 hdl
        (nodes.getD i dfltNode).target (cmCount nodes (nodes.getD i dfltNode).target)
        (cmCountBefore nodes (nodes.getD i dfltNode).target i)
        (dictGet_mem _ _ _ hget) (by omega) hlt
    · intro q hq
      obtain ⟨t, cnt, m, idx, htc, hm, h1, h2, hn, hs, _⟩ :=
        dupLoop_mem (targetCounts nodes []) modules fresh ds0 hdl q hq
      have hget := dictGet_of_mem_nodup (targetCounts nodes []) t cnt
        (targetCounts_keys_nodup nodes [] (by simp)) htc
      rw [targetCounts_get nodes [] t, dictGet_nil] at hget
      dsimp only at hget
      by_cases hc0 : cmCount nodes t = 0
      · rw [if_pos hc0] at hget
        exact absurd hget (by simp)
      · rw [if_neg hc0] at hget
        have hcnt := Option.some.inj hget
        exact ⟨t, idx, m, h1, by omega, hn, hm, hs⟩
    · intro q hq p hp
      have h1 := dupLoop_addr_ge (targetCounts nodes []) modules fresh ds0 hdl q hq
      have h2 := hfresh p hp
      omega
    · exact dupLoop_addr_nodup (targetCounts nodes []) modules fresh ds0 hdl

/-- Witness for C6: the characterization applied to the spec's example of
three module-call nodes all targeting "conv1". -/
theorem C6_witness :
    c6ns.length = c6nodes.length ∧
    c6ds.length = (renamedPairs c6nodes []).length ∧
    ((c6ds.map fun q => q.2.addr).Nodup) := by
  have H := C6_dedup_characterization c6nodes c6modules 1 c6ns c6ds (by decide) rfl
  exact ⟨H.1, H.2.2.2.2.2.1, H.2.2.2.2.2.2.2.2.2⟩

end SophgoMQ
